import Mathlib

/-!
SignalForm dashboard resource: payload construction, validation, CRUD dispatch

A shallow embedding of `signalform/dashboard.go`.

* Go values of type `interface{}` that reach `json.Marshal` are modelled by `GoValue`.
* A Go `map[string]interface{}` is modelled by an association list with unique keys
  (`GoMap`); `m[k] = v` is `GoMap.set`, `v, ok := m[k]` is `GoMap.get?`, `len(m)` is the
  length of the list.
* `schema.ResourceData` is modelled by the record `ResourceData` of the fields declared in
  `dashboardResource`; `d.Get` and `d.GetOk` follow the Terraform SDK: `Get` yields the zero
  value of the field type when the field is unset, `GetOk` reports `ok` only for a field
  that is set to a value different from the zero value of its type.
* Strings are sequences of Unicode scalar values (UTF-8 text); `json.Marshal` is modelled
  by `jsonMarshal` (keys in sorted order, HTML escaping on) and the bytes it returns by their
  text. `jsonUnmarshal` is a JSON decoder with Go's treatment of repeated keys and of `\u`
  escapes, decoding numbers exactly.
-/

namespace Signalform

/-! ## Go values and maps -/

/-- Dynamic Go values occurring in the payload (`interface{}`): `nil`, `bool`, `int`,
`string`, slices and `map[string]interface{}`. -/
inductive GoValue where
  | null : GoValue
  | bool : Bool → GoValue
  | int : Int → GoValue
  | str : String → GoValue
  | arr : List GoValue → GoValue
  | obj : List (String × GoValue) → GoValue

/-- A Go `map[string]interface{}`: association list, every key occurring once. -/
abbrev GoMap := List (String × GoValue)

/-- Go `v, ok := m[k]`. -/
def GoMap.get? (m : GoMap) (k : String) : Option GoValue :=
  match m with
  | [] => none
  | (k', v) :: rest => if k' = k then some v else GoMap.get? rest k

/-- Go `m[k] = v`: overwrite the binding of `k` when there is one, add it otherwise. -/
def GoMap.set (m : GoMap) (k : String) (v : GoValue) : GoMap :=
  match m with
  | [] => [(k, v)]
  | (k', v') :: rest => if k' = k then (k, v) :: rest else (k', v') :: GoMap.set rest k v

/-- The keys of a Go map. -/
def GoMap.keys (m : GoMap) : List String := m.map Prod.fst

/-- Field access on a dynamic value: the binding of `k` when the value is a map. -/
def GoValue.field? (v : GoValue) (k : String) : Option GoValue :=
  match v with
  | .obj m => GoMap.get? m k
  | _ => none

/-! ## validateChartsResolution -/

/-- Go `strings.Join`. -/
def stringsJoin (elems : List String) (sep : String) : String :=
  match elems with
  | [] => ""
  | [e] => e
  | e :: rest => e ++ sep ++ stringsJoin rest sep

/-- The allow-list of `validateChartsResolution`. -/
def allowedWords : List String := ["default", "low", "high", "highest"]

/-- The loop `for _, word := range allowedWords { if value == word { return } }`:
`true` when the early return is taken. -/
def validateChartsResolution.loop (value : String) (words : List String) : Bool :=
  match words with
  | [] => false
  | word :: rest => if value = word then true else validateChartsResolution.loop value rest

/-- Go `validateChartsResolution(v, k)`: the pair `(we, errors)`, errors given by their
messages. -/
def validateChartsResolution (v : String) (_k : String) : List String × List String :=
  let value := v
  if validateChartsResolution.loop value allowedWords then
    ([], [])
  else
    ([], [] ++ [value ++ " not allowed; must be one of: " ++ stringsJoin allowedWords ", "])

/-! ## The resource record and the SDK accessors -/

/-- One element of the `chart` set, as `(*schema.Set).List()` hands it to the code. -/
structure ChartEntry where
  chart_id : String
  row : Int
  column : Int
  width : Int
  height : Int

/-- One element of the `variable` set; `alias_` stands for the key `alias`. The key
`values_suggested` may be absent from the element map (`none`). -/
structure VariableEntry where
  property : String
  alias_ : String
  values : List String
  value_required : Bool
  values_suggested : Option (List String)
  restricted_suggestions : Bool

/-- One element of the `filter` set. -/
structure FilterEntry where
  property : String
  negated : Bool
  values : List String

/-- The fields of `schema.ResourceData` for the dashboard resource. Optional scalar fields
are `none` when unset; the three sets are given by their `List()` enumeration; `variable_`
stands for the key `variable`, `id` for `d.Id()`. -/
structure ResourceData where
  id : String
  synced : Bool
  last_updated : Option Rat
  name : String
  description : Option String
  dashboard_group : String
  charts_resolution : Option String
  time_span_type : Option String
  time_range : Option String
  start_time : Option Int
  end_time : Option Int
  chart : List ChartEntry
  variable_ : List VariableEntry
  filter : List FilterEntry

/-- SDK `d.Get(key).(string)`: the value, or the zero value `""` when unset. -/
def getString (field : Option String) : String :=
  match field with
  | some s => s
  | none => ""

/-- SDK `d.GetOk(key)` on a string field: the value and whether it is set and differs from
the zero value `""`. -/
def getOkString (field : Option String) : String × Bool :=
  match field with
  | some s => (s, decide (s ≠ ""))
  | none => ("", false)

/-- SDK `d.GetOk(key)` on an int field: the value and whether it is set and differs from
the zero value `0`. -/
def getOkInt (field : Option Int) : Int × Bool :=
  match field with
  | some n => (n, decide (n ≠ 0))
  | none => (0, false)

/-- Go `int` arithmetic on a 64-bit platform: results wrap around modulo `2^64` into
`[-2^63, 2^63)`. -/
def wrapInt64 (x : Int) : Int := (x + 2 ^ 63) % 2 ^ 64 - 2 ^ 63

/-- Go `a * b` on `int`. -/
def mulInt (a b : Int) : Int := wrapInt64 (a * b)

/-- Go `unicode.ToUpper`: the ASCII range is mapped by the code of the standard library,
`nonAscii` stands for its Unicode case tables above U+007F. -/
def unicodeToUpper (nonAscii : Char → Char) (r : Char) : Char :=
  if r.toNat ≤ 127 then
    if 'a'.toNat ≤ r.toNat ∧ r.toNat ≤ 'z'.toNat then Char.ofNat (r.toNat - ('a'.toNat - 'A'.toNat)) else r
  else nonAscii r

/-- Go `strings.ToUpper`: every rune mapped by `unicode.ToUpper`. -/
def stringsToUpper (nonAscii : Char → Char) (s : String) : String :=
  String.mk (s.toList.map (unicodeToUpper nonAscii))

/-- The list of strings of a `*schema.Set` of strings as a `[]interface{}`. -/
def stringList (xs : List String) : GoValue := .arr (xs.map GoValue.str)

/-- A `[]map[string]interface{}` as a dynamic value. -/
def mapList (xs : List GoMap) : GoValue := .arr (xs.map GoValue.obj)

/-- The loop `for i, x := range xs { out[i] = item(x) }` over a preallocated slice. -/
def rangeAssign {α : Type} (item : α → GoMap) (xs : List α) (i : Nat) (out : List GoMap) :
    List GoMap :=
  match xs with
  | [] => out
  | x :: rest => rangeAssign item rest (i + 1) (out.set i (item x))

/-- Go `make([]map[string]interface{}, n)`: `n` nil maps. The range loop overwrites every
one of them (`rangeAssign_eq_map`), so no nil map reaches the encoder. -/
def makeMaps (n : Nat) : List GoMap := List.replicate n []

/-! ## The payload builders -/

/-- Go `getDashboardTime`; the `nil` result is the empty map. -/
def getDashboardTime (d : ResourceData) : GoMap :=
  let timeMap : GoMap := []
  let timeMap :=
    if (getOkString d.time_span_type).2 then
      if (getOkString d.time_span_type).1 = "relative" then
        if (getOkString d.time_range).2 then
          let timeMap := GoMap.set timeMap "start" (.str (getOkString d.time_range).1)
          GoMap.set timeMap "end" (.str "Now")
        else timeMap
      else
        let timeMap :=
          if (getOkInt d.start_time).2 then
            GoMap.set timeMap "start" (.int (mulInt (getOkInt d.start_time).1 1000))
          else timeMap
        if (getOkInt d.end_time).2 then
          GoMap.set timeMap "end" (.int (mulInt (getOkInt d.end_time).1 1000))
        else timeMap
    else timeMap
  if timeMap.length > 0 then timeMap else []

/-- The body of the loop of `getDashboardCharts`. -/
def getDashboardCharts.item (chart : ChartEntry) : GoMap :=
  let item : GoMap := []
  let item := GoMap.set item "chartId" (.str chart.chart_id)
  let item := GoMap.set item "row" (.int chart.row)
  let item := GoMap.set item "column" (.int chart.column)
  let item := GoMap.set item "height" (.int chart.height)
  let item := GoMap.set item "width" (.int chart.width)
  item

/-- Go `getDashboardCharts`. -/
def getDashboardCharts (d : ResourceData) : List GoMap :=
  let charts := d.chart
  let charts_list := makeMaps charts.length
  rangeAssign getDashboardCharts.item charts 0 charts_list

/-- The body of the loop of `getDashboardVariables`. -/
def getDashboardVariables.item (variable_ : VariableEntry) : GoMap :=
  let item : GoMap := []
  let item := GoMap.set item "property" (.str variable_.property)
  let item := GoMap.set item "alias" (.str variable_.alias_)
  let item := GoMap.set item "value" (stringList variable_.values)
  let item := GoMap.set item "required" (.bool variable_.value_required)
  let item :=
    match variable_.values_suggested with
    | some val => GoMap.set item "preferredSuggestions" (stringList val)
    | none => item
  let item := GoMap.set item "restricted" (.bool variable_.restricted_suggestions)
  item

/-- Go `getDashboardVariables`. -/
def getDashboardVariables (d : ResourceData) : List GoMap :=
  let vars := d.variable_
  let vars_list := makeMaps vars.length
  rangeAssign getDashboardVariables.item vars 0 vars_list

/-- The body of the loop of `getDashboardFilters`. -/
def getDashboardFilters.item (filter : FilterEntry) : GoMap :=
  let item : GoMap := []
  let item := GoMap.set item "property" (.str filter.property)
  let item := GoMap.set item "NOT" (.bool filter.negated)
  let item := GoMap.set item "value" (stringList filter.values)
  item

/-- Go `getDashboardFilters`. -/
def getDashboardFilters (d : ResourceData) : List GoMap :=
  let filters := d.filter
  let filter_list := makeMaps filters.length
  rangeAssign getDashboardFilters.item filters 0 filter_list

/-- The map `all_filters` that `getPayloadDashboard` assembles. -/
def getPayloadDashboard.all_filters (d : ResourceData) : GoMap :=
  let all_filters : GoMap := []
  let all_filters :=
    if (getDashboardFilters d).length > 0 then
      GoMap.set all_filters "sources" (mapList (getDashboardFilters d))
    else all_filters
  let all_filters :=
    if (getDashboardVariables d).length > 0 then
      GoMap.set all_filters "variables" (mapList (getDashboardVariables d))
    else all_filters
  let all_filters :=
    if (getDashboardTime d).length > 0 then
      GoMap.set all_filters "time" (.obj (getDashboardTime d))
    else all_filters
  all_filters

/-- The map `payload` that `getPayloadDashboard` hands to `json.Marshal`. -/
def getPayloadDashboard.payload (nonAscii : Char → Char) (d : ResourceData) : GoMap :=
  let payload : GoMap := []
  let payload := GoMap.set payload "name" (.str d.name)
  let payload := GoMap.set payload "description" (.str (getString d.description))
  let payload := GoMap.set payload "groupId" (.str d.dashboard_group)
  let payload :=
    if (getPayloadDashboard.all_filters d).length > 0 then
      GoMap.set payload "filters" (.obj (getPayloadDashboard.all_filters d))
    else payload
  let payload :=
    if (getDashboardCharts d).length > 0 then
      GoMap.set payload "charts" (mapList (getDashboardCharts d))
    else payload
  let payload :=
    if (getOkString d.charts_resolution).2 then
      GoMap.set payload "chartDensity"
        (.str (stringsToUpper nonAscii (getOkString d.charts_resolution).1))
    else payload
  payload

/-- Go `getPayloadDashboard`, for an encoder `marshal` standing for `json.Marshal`. -/
def getPayloadDashboard (nonAscii : Char → Char) (marshal : GoValue → Except String String)
    (d : ResourceData) : Except String String :=
  marshal (.obj (getPayloadDashboard.payload nonAscii d))

/-! ## json.Marshal -/

/-- The digits `"0123456789abcdef"` of `encoding/json`. -/
def hexDigit (n : Nat) : Char :=
  if n < 10 then Char.ofNat ('0'.toNat + n) else Char.ofNat ('a'.toNat + (n - 10))

/-- The escape of one rune inside a JSON string, as `encoding/json` writes it with HTML
escaping on: `\"`, `\\`, `\n`, `\r`, `\t`, `\u00XX` for the other control characters and for
`<`, `>`, `&`, and `\u2028`, `\u2029` for U+2028 and U+2029. -/
def escapeRune (c : Char) : List Char :=
  if c = '"' then ['\\', '"']
  else if c = '\\' then ['\\', '\\']
  else if c = '\n' then ['\\', 'n']
  else if c = '\r' then ['\\', 'r']
  else if c = '\t' then ['\\', 't']
  else if c.toNat < 32 ∨ c = '<' ∨ c = '>' ∨ c = '&' then
    ['\\', 'u', '0', '0', hexDigit (c.toNat / 16), hexDigit (c.toNat % 16)]
  else if c.toNat = 8232 ∨ c.toNat = 8233 then
    ['\\', 'u', '2', '0', '2', hexDigit (c.toNat % 16)]
  else [c]

/-- A Go string as a JSON string literal. -/
def encodeString (s : String) : String :=
  String.mk ('"' :: (s.toList.flatMap escapeRune ++ ['"']))

/-- Go `a < b` on strings: the lexicographic order of the bytes, which for UTF-8 text is
the lexicographic order of the code points. -/
def stringLess (a b : List Char) : Bool :=
  match a, b with
  | [], [] => false
  | [], _ :: _ => true
  | _ :: _, [] => false
  | x :: xs, y :: ys =>
    if x.toNat < y.toNat then true
    else if y.toNat < x.toNat then false
    else stringLess xs ys

/-- Insertion of a key with its encoded value into a list sorted by key. -/
def insertSorted (kv : String × String) (l : List (String × String)) :
    List (String × String) :=
  match l with
  | [] => [kv]
  | x :: rest => if stringLess kv.1.toList x.1.toList then kv :: x :: rest else x :: insertSorted kv rest

/-- The map keys in the sorted order `encoding/json` writes them. -/
def sortByKey (l : List (String × String)) : List (String × String) :=
  match l with
  | [] => []
  | x :: rest => insertSorted x (sortByKey rest)

mutual
/-- The text `encoding/json` writes for a value. -/
def encodeValue (v : GoValue) : String :=
  match v with
  | .null => "null"
  | .bool b => if b then "true" else "false"
  | .int n => toString n
  | .str s => encodeString s
  | .arr xs => "[" ++ stringsJoin (encodeValues xs) "," ++ "]"
  | .obj m =>
    "\x7b" ++ stringsJoin ((sortByKey (encodeFields m)).map
      (fun kv => encodeString kv.1 ++ ":" ++ kv.2)) "," ++ "\x7d"
/-- The texts of the elements of a slice. -/
def encodeValues (xs : List GoValue) : List String :=
  match xs with
  | [] => []
  | x :: rest => encodeValue x :: encodeValues rest
/-- The keys of a map with the texts of their values. -/
def encodeFields (m : List (String × GoValue)) : List (String × String) :=
  match m with
  | [] => []
  | (k, x) :: rest => (k, encodeValue x) :: encodeFields rest
end

/-- Go `json.Marshal` on the values of `GoValue`: it always succeeds on them. -/
def jsonMarshal (v : GoValue) : Except String String := .ok (encodeValue v)

/-! ## The CRUD entry points -/

/-- The constant `DASHBOARD_API_URL`. -/
def DASHBOARD_API_URL : String := "https://api.signalfx.com/v2/dashboard"

/-- The provider configuration `signalformConfig`. -/
structure signalformConfig where
  SfxToken : String

/-- What an entry point returns: an error made by the entry point itself, or whatever the
shared helper it delegates to returns. -/
inductive Outcome (ρ : Type) where
  | failed : String → Outcome ρ
  | delegated : ρ → Outcome ρ

/-- Go `dashboardCreate`, for the shared helper `resourceCreate(url, token, payload, d)`. -/
def dashboardCreate {ρ : Type} (nonAscii : Char → Char)
    (marshal : GoValue → Except String String)
    (resourceCreate : String → String → String → ResourceData → ρ)
    (d : ResourceData) (meta : signalformConfig) : Outcome ρ :=
  let config := meta
  match getPayloadDashboard nonAscii marshal d with
  | .error err => .failed ("Failed creating json payload: " ++ err)
  | .ok payload => .delegated (resourceCreate DASHBOARD_API_URL config.SfxToken payload d)

/-- Go `dashboardRead`, for the shared helper `resourceRead(url, token, d)`. -/
def dashboardRead {ρ : Type} (resourceRead : String → String → ResourceData → ρ)
    (d : ResourceData) (meta : signalformConfig) : Outcome ρ :=
  let config := meta
  let url := DASHBOARD_API_URL ++ "/" ++ d.id
  .delegated (resourceRead url config.SfxToken d)

/-- Go `dashboardUpdate`, for the shared helper `resourceUpdate(url, token, payload, d)`. -/
def dashboardUpdate {ρ : Type} (nonAscii : Char → Char)
    (marshal : GoValue → Except String String)
    (resourceUpdate : String → String → String → ResourceData → ρ)
    (d : ResourceData) (meta : signalformConfig) : Outcome ρ :=
  let config := meta
  match getPayloadDashboard nonAscii marshal d with
  | .error err => .failed ("Failed creating json payload: " ++ err)
  | .ok payload =>
    let url := DASHBOARD_API_URL ++ "/" ++ d.id
    .delegated (resourceUpdate url config.SfxToken payload d)

/-- Go `dashboardDelete`, for the shared helper `resourceDelete(url, token, d)`. -/
def dashboardDelete {ρ : Type} (resourceDelete : String → String → ResourceData → ρ)
    (d : ResourceData) (meta : signalformConfig) : Outcome ρ :=
  let config := meta
  let url := DASHBOARD_API_URL ++ "/" ++ d.id
  .delegated (resourceDelete url config.SfxToken d)

/-- The configuration of the end-to-end scenario: name `D1`, group `G1`, resolution
`high`, nothing else set. -/
def scenarioD1 : ResourceData :=
  { id := "", synced := true, last_updated := none, name := "D1", description := none,
    dashboard_group := "G1", charts_resolution := some "high", time_span_type := none,
    time_range := none, start_time := none, end_time := none, chart := [], variable_ := [],
    filter := [] }

/-- The value at `filters.time` of a payload map, when there is one. -/
def filtersTime (payload : GoMap) : Option GoValue :=
  match GoMap.get? payload "filters" with
  | some filters => filters.field? "time"
  | none => none

/-- A configuration that sets `time_range` and leaves `time_span_type`, `start_time` and
`end_time` unset. -/
def rangeOnly : ResourceData :=
  { id := "", synced := true, last_updated := none, name := "D1", description := none,
    dashboard_group := "G1", charts_resolution := none, time_span_type := none,
    time_range := some "-1h", start_time := none, end_time := none, chart := [],
    variable_ := [], filter := [] }

/-- A configuration that sets `start_time` and `end_time` and leaves `time_span_type` and
`time_range` unset. -/
def boundsOnly : ResourceData :=
  { id := "", synced := true, last_updated := none, name := "D1", description := none,
    dashboard_group := "G1", charts_resolution := none, time_span_type := none,
    time_range := none, start_time := some 1500000000, end_time := some 1500003600,
    chart := [], variable_ := [], filter := [] }

/-- A configuration of type `absolute` whose `start_time` is 0, the epoch. -/
def epochStart : ResourceData :=
  { id := "", synced := true, last_updated := none, name := "D1", description := none,
    dashboard_group := "G1", charts_resolution := none, time_span_type := some "absolute",
    time_range := none, start_time := some 0, end_time := some 1500003600,
    chart := [], variable_ := [], filter := [] }

/-- A configuration of type `absolute` whose `start_time`, times 1000, exceeds `2^63 - 1`. -/
def hugeStart : ResourceData :=
  { id := "", synced := true, last_updated := none, name := "D1", description := none,
    dashboard_group := "G1", charts_resolution := none, time_span_type := some "absolute",
    time_range := none, start_time := some 9223372036854776, end_time := some 1500003600,
    chart := [], variable_ := [], filter := [] }

/-- A configuration with a relative time window and no chart, variable or filter. -/
def relativeWindow : ResourceData :=
  { id := "", synced := true, last_updated := none, name := "D1", description := none,
    dashboard_group := "G1", charts_resolution := none, time_span_type := some "relative",
    time_range := some "-1h", start_time := none, end_time := none, chart := [],
    variable_ := [], filter := [] }

/-- A configuration with an absolute time window and no chart, variable or filter. -/
def absoluteWindow : ResourceData :=
  { id := "", synced := true, last_updated := none, name := "D1", description := none,
    dashboard_group := "G1", charts_resolution := none, time_span_type := some "absolute",
    time_range := none, start_time := some 1500000000, end_time := some 1500003600,
    chart := [], variable_ := [], filter := [] }

/-- A `chart` block as written in a configuration: `chart_id` is Required, the four layout
fields are Optional. -/
structure ChartConfig where
  chart_id : String
  row : Option Int
  column : Option Int
  width : Option Int
  height : Option Int

/-- The `Default` the chart schema declares for `width`. -/
def chartWidthDefault : Int := 12

/-- The `Default` the chart schema declares for `height`. -/
def chartHeightDefault : Int := 1

/-- The set element the SDK reads from a `chart` block: an unset field reads as the
`Default` of its schema, or as the zero value of its type when the schema declares none. -/
def readChart (c : ChartConfig) : ChartEntry :=
  { chart_id := c.chart_id
    row := c.row.getD 0
    column := c.column.getD 0
    width := c.width.getD chartWidthDefault
    height := c.height.getD chartHeightDefault }

/-- A configuration with one chart, one variable, one filter and a relative time window. -/
def fullDashboard : ResourceData :=
  { id := "Dx1", synced := true, last_updated := none, name := "D1",
    description := some "all parts", dashboard_group := "G1",
    charts_resolution := some "highest", time_span_type := some "relative",
    time_range := some "-1h", start_time := none, end_time := none,
    chart := [readChart ⟨"C1", none, none, none, none⟩],
    variable_ := [⟨"region", "Region", ["eu", "us"], true, some ["eu"], false⟩],
    filter := [⟨"env", true, ["test"]⟩] }

/-- A shared helper that records the URL, the token and the payload it is called with. -/
def recordCall (url token payload : String) (_d : ResourceData) : String × String × String :=
  (url, token, payload)

/-- A shared helper without payload that records the URL and the token it is called with. -/
def recordCallNoPayload (url token : String) (_d : ResourceData) : String × String :=
  (url, token)

/-- The value at `filters.sources` of a payload map, when there is one. -/
def filtersSources (payload : GoMap) : Option GoValue :=
  match GoMap.get? payload "filters" with
  | some filters => filters.field? "sources"
  | none => none

/-- An encoder that fails on every value, with the cause `json: unsupported value`. -/
def failingMarshal (_v : GoValue) : Except String String :=
  .error "json: unsupported value"

/-- A configuration of type `relative` in which `time_range`, `start_time` and `end_time`
are all set. -/
def allTimeFields : ResourceData :=
  { id := "", synced := true, last_updated := none, name := "D1", description := none,
    dashboard_group := "G1", charts_resolution := none, time_span_type := some "relative",
    time_range := some "-1h", start_time := some 1500000000, end_time := some 1500003600,
    chart := [], variable_ := [], filter := [] }

/-- A configuration whose `time_span_type` is the empty string and in which `time_range`,
`start_time` and `end_time` are all set. -/
def emptySpanType : ResourceData :=
  { id := "", synced := true, last_updated := none, name := "D1", description := none,
    dashboard_group := "G1", charts_resolution := none, time_span_type := some "",
    time_range := some "-1h", start_time := some 1500000000, end_time := some 1500003600,
    chart := [], variable_ := [], filter := [] }

/-! ## Decoding JSON

A decoder for JSON text (RFC 8259) into `GoValue`, with Go's treatment of maps (a repeated
key overwrites the earlier binding) and of `\u` escapes. Numbers are decoded exactly; a
number with a fraction or an exponent has no counterpart in `GoValue` and is refused. -/

/-- JSON whitespace. -/
def isSpace (c : Char) : Bool :=
  c = ' ' || c = '\t' || c = '\r' || c = '\n'

/-- The text without its leading whitespace. -/
def skipSpace (cs : List Char) : List Char :=
  match cs with
  | [] => []
  | c :: rest => if isSpace c then skipSpace rest else c :: rest

/-- The value of a decimal digit. -/
def digitValue (c : Char) : Option Nat :=
  if '0'.toNat ≤ c.toNat ∧ c.toNat ≤ '9'.toNat then some (c.toNat - '0'.toNat) else none

/-- The value of a hexadecimal digit, in either case. -/
def hexValue (c : Char) : Option Nat :=
  if '0'.toNat ≤ c.toNat ∧ c.toNat ≤ '9'.toNat then some (c.toNat - '0'.toNat)
  else if 'a'.toNat ≤ c.toNat ∧ c.toNat ≤ 'f'.toNat then some (c.toNat - 'a'.toNat + 10)
  else if 'A'.toNat ≤ c.toNat ∧ c.toNat ≤ 'F'.toNat then some (c.toNat - 'A'.toNat + 10)
  else none

/-- The number written by four hexadecimal digits at the head of the text. -/
def readHex4 (cs : List Char) : Option (Nat × List Char) :=
  match cs with
  | a :: b :: c :: d :: rest =>
    match hexValue a, hexValue b, hexValue c, hexValue d with
    | some x, some y, some z, some w => some (((x * 16 + y) * 16 + z) * 16 + w, rest)
    | _, _, _, _ => none
  | _ => none

/-- The rune of a `\u` escape whose four digits gave `hi`, read with what follows it:
a surrogate pair written as two escapes is one rune, a lone surrogate is U+FFFD. -/
def decodeUnicode (hi : Nat) (rest : List Char) : Char × List Char :=
  if 55296 ≤ hi ∧ hi < 57344 then
    match rest with
    | '\\' :: 'u' :: more =>
      match readHex4 more with
      | some (lo, rest') =>
        if hi < 56320 ∧ 56320 ≤ lo ∧ lo < 57344 then
          (Char.ofNat ((hi - 55296) * 1024 + (lo - 56320) + 65536), rest')
        else (Char.ofNat 65533, rest)
      | none => (Char.ofNat 65533, rest)
    | _ => (Char.ofNat 65533, rest)
  else (Char.ofNat hi, rest)

/-- The rune of the escape that follows a backslash. -/
def decodeEscape (cs : List Char) : Option (Char × List Char) :=
  match cs with
  | [] => none
  | c :: rest =>
    if c = '"' then some ('"', rest)
    else if c = '\\' then some ('\\', rest)
    else if c = '/' then some ('/', rest)
    else if c = 'b' then some (Char.ofNat 8, rest)
    else if c = 'f' then some (Char.ofNat 12, rest)
    else if c = 'n' then some ('\n', rest)
    else if c = 'r' then some ('\r', rest)
    else if c = 't' then some ('\t', rest)
    else if c = 'u' then
      match readHex4 rest with
      | some (hi, rest') => some (decodeUnicode hi rest')
      | none => none
    else none

/-- The runes of a string literal, read after its opening quote up to its closing quote. -/
def decodeStringBody (fuel : Nat) (cs : List Char) : Option (List Char × List Char) :=
  match fuel with
  | 0 => none
  | fuel + 1 =>
    match cs with
    | [] => none
    | c :: rest =>
      if c = '"' then some ([], rest)
      else if c = '\\' then
        match decodeEscape rest with
        | some (r, rest') =>
          match decodeStringBody fuel rest' with
          | some (s, rest'') => some (r :: s, rest'')
          | none => none
        | none => none
      else if c.toNat < 32 then none
      else
        match decodeStringBody fuel rest with
        | some (s, rest') => some (c :: s, rest')
        | none => none

/-- A string literal read after its opening quote. -/
def decodeString (cs : List Char) : Option (String × List Char) :=
  match decodeStringBody cs.length cs with
  | some (s, rest) => some (String.mk s, rest)
  | none => none

/-- The digits at the head of the text, accumulated onto `acc`. -/
def readDigits (acc : Nat) (cs : List Char) : Nat × List Char :=
  match cs with
  | [] => (acc, [])
  | c :: rest =>
    match digitValue c with
    | some v => readDigits (acc * 10 + v) rest
    | none => (acc, c :: rest)

/-- Whether the text after the integer part of a number turns it into a number with a
fraction or an exponent, or continues a part that began with the digit zero. -/
def startsFraction (cs : List Char) : Bool :=
  match cs with
  | [] => false
  | c :: _ => c = '.' || c = 'e' || c = 'E'

/-- A natural number in JSON syntax: `0`, or a non-zero digit followed by digits. -/
def decodeNat (cs : List Char) : Option (Nat × List Char) :=
  match cs with
  | [] => none
  | c :: rest =>
    match digitValue c with
    | none => none
    | some v =>
      if v = 0 then
        match rest with
        | [] => some (0, [])
        | c' :: rest' =>
          if (digitValue c').isSome || startsFraction (c' :: rest') then none
          else some (0, c' :: rest')
      else
        if startsFraction (readDigits v rest).2 then none
        else some (readDigits v rest)

/-- An integer in JSON syntax. -/
def decodeNumber (cs : List Char) : Option (Int × List Char) :=
  match cs with
  | [] => none
  | c :: rest =>
    if c = '-' then
      match decodeNat rest with
      | some (n, rest') => some (-(n : Int), rest')
      | none => none
    else
      match decodeNat (c :: rest) with
      | some (n, rest') => some ((n : Int), rest')
      | none => none

/-- The text after the given characters, when it starts with them. -/
def expectChars (want : List Char) (cs : List Char) : Option (List Char) :=
  match want, cs with
  | [], cs => some cs
  | _ :: _, [] => none
  | w :: want', c :: rest => if w = c then expectChars want' rest else none

mutual
/-- One JSON value at the head of the text, and the text after it. -/
def decodeValue (fuel : Nat) (cs : List Char) : Option (GoValue × List Char) :=
  match fuel with
  | 0 => none
  | fuel + 1 =>
    match skipSpace cs with
    | [] => none
    | c :: rest =>
      if c = 'n' then
        match expectChars ['u', 'l', 'l'] rest with
        | some rest' => some (.null, rest')
        | none => none
      else if c = 't' then
        match expectChars ['r', 'u', 'e'] rest with
        | some rest' => some (.bool true, rest')
        | none => none
      else if c = 'f' then
        match expectChars ['a', 'l', 's', 'e'] rest with
        | some rest' => some (.bool false, rest')
        | none => none
      else if c = '"' then
        match decodeString rest with
        | some (s, rest') => some (.str s, rest')
        | none => none
      else if c = '[' then
        match skipSpace rest with
        | [] => none
        | c' :: rest' =>
          if c' = ']' then some (.arr [], rest')
          else
            match decodeElements fuel (c' :: rest') with
            | some (xs, rest'') => some (.arr xs, rest'')
            | none => none
      else if c = '\x7b' then
        match skipSpace rest with
        | [] => none
        | c' :: rest' =>
          if c' = '\x7d' then some (.obj [], rest')
          else
            match decodeMembers fuel (c' :: rest') [] with
            | some (m, rest'') => some (.obj m, rest'')
            | none => none
      else
        match decodeNumber (c :: rest) with
        | some (n, rest') => some (.int n, rest')
        | none => none
/-- The elements of an array, read after its opening bracket up to its closing bracket. -/
def decodeElements (fuel : Nat) (cs : List Char) : Option (List GoValue × List Char) :=
  match fuel with
  | 0 => none
  | fuel + 1 =>
    match decodeValue fuel cs with
    | none => none
    | some (v, rest) =>
      match skipSpace rest with
      | [] => none
      | c :: rest' =>
        if c = ',' then
          match decodeElements fuel rest' with
          | some (xs, rest'') => some (v :: xs, rest'')
          | none => none
        else if c = ']' then some ([v], rest')
        else none
/-- The members of an object, read after its opening brace up to its closing brace and
stored into `acc`; a key that occurs again overwrites. -/
def decodeMembers (fuel : Nat) (cs : List Char) (acc : GoMap) : Option (GoMap × List Char) :=
  match fuel with
  | 0 => none
  | fuel + 1 =>
    match skipSpace cs with
    | [] => none
    | q :: afterQuote =>
      if q = '"' then
        match decodeString afterQuote with
        | none => none
        | some (key, rest) =>
          match skipSpace rest with
          | [] => none
          | colon :: rest1 =>
            if colon = ':' then
              match decodeValue fuel rest1 with
              | none => none
              | some (v, rest2) =>
                match skipSpace rest2 with
                | [] => none
                | c :: rest3 =>
                  if c = ',' then decodeMembers fuel rest3 (GoMap.set acc key v)
                  else if c = '\x7d' then some (GoMap.set acc key v, rest3)
                  else none
            else none
      else none
end

/-- Decoding of a whole JSON text: one value, with nothing but whitespace after it. The
fuel is two steps for every character of the text. -/
def jsonUnmarshal (text : String) : Option GoValue :=
  match decodeValue (2 * text.toList.length + 1) text.toList with
  | some (v, rest) => if skipSpace rest = [] then some v else none
  | none => none

/-! ## Structural equality of values -/

mutual
/-- Structural equality of a value with a decoded value: equal scalars, lists of the same
length with structurally equal elements in the same order, maps with the same key set
and structurally equal values at every key. -/
def sameValue (v w : GoValue) : Prop :=
  match v with
  | .null => w = .null
  | .bool b => w = .bool b
  | .int n => w = .int n
  | .str s => w = .str s
  | .arr xs => ∃ ys, w = .arr ys ∧ sameElements xs ys
  | .obj m => ∃ m', w = .obj m' ∧ sameBindings m m' ∧
      (∀ k, k ∈ GoMap.keys m' → k ∈ m.map Prod.fst) ∧ (GoMap.keys m').Nodup
/-- Elementwise structural equality of two lists. -/
def sameElements (xs ys : List GoValue) : Prop :=
  match xs with
  | [] => ys = []
  | x :: xs' => ∃ y ys', ys = y :: ys' ∧ sameValue x y ∧ sameElements xs' ys'
/-- Every binding of the first map has a structurally equal binding in the second. -/
def sameBindings (m : List (String × GoValue)) (m' : GoMap) : Prop :=
  match m with
  | [] => True
  | (k, x) :: rest => (∃ y, GoMap.get? m' k = some y ∧ sameValue x y) ∧ sameBindings rest m'
end

/-! ## Auxiliary notions for the round trip -/

/-- What may follow an encoded value inside the encoding of a larger one: nothing, a comma,
a closing bracket or a closing brace. -/
def Delimited (rest : List Char) : Prop :=
  rest = [] ∨ ∃ c t, rest = c :: t ∧ (c = ',' ∨ c = ']' ∨ c = '\x7d')

/-- The number that a list of decimal digits writes after the digits that gave `acc`. -/
def digitsValue (acc : Nat) (ds : List Char) : Nat :=
  ds.foldl (fun a c => a * 10 + (digitValue c).getD 0) acc

/-- Insertion of a binding into a list of bindings sorted by key, as `insertSorted` does
it for the encoded bindings. -/
def insertField (kv : String × GoValue) (l : GoMap) : GoMap :=
  match l with
  | [] => [kv]
  | x :: rest =>
    if stringLess kv.1.toList x.1.toList then kv :: x :: rest else x :: insertField kv rest

/-- The bindings of a map in the order of their keys. -/
def sortFields (l : GoMap) : GoMap :=
  match l with
  | [] => []
  | x :: rest => insertField x (sortFields rest)

mutual
/-- The value with the bindings of every map in it listed in the order of their keys. -/
def canon (v : GoValue) : GoValue :=
  match v with
  | .null => .null
  | .bool b => .bool b
  | .int n => .int n
  | .str s => .str s
  | .arr xs => .arr (canonElements xs)
  | .obj m => .obj (sortFields (canonBindings m))
/-- The elements of a list, each with its maps in key order. -/
def canonElements (xs : List GoValue) : List GoValue :=
  match xs with
  | [] => []
  | x :: rest => canon x :: canonElements rest
/-- The bindings of a map, each value with its maps in key order. -/
def canonBindings (m : List (String × GoValue)) : List (String × GoValue) :=
  match m with
  | [] => []
  | (k, x) :: rest => (k, canon x) :: canonBindings rest
end

mutual
/-- Every map inside the value binds each of its keys once, as a Go map does. -/
def UniqueKeys (v : GoValue) : Prop :=
  match v with
  | .null => True
  | .bool _ => True
  | .int _ => True
  | .str _ => True
  | .arr xs => UniqueKeysElements xs
  | .obj m => (m.map Prod.fst).Nodup ∧ UniqueKeysBindings m
/-- `UniqueKeys` for the elements of a list. -/
def UniqueKeysElements (xs : List GoValue) : Prop :=
  match xs with
  | [] => True
  | x :: rest => UniqueKeys x ∧ UniqueKeysElements rest
/-- `UniqueKeys` for the values of a map. -/
def UniqueKeysBindings (m : List (String × GoValue)) : Prop :=
  match m with
  | [] => True
  | (_, x) :: rest => UniqueKeys x ∧ UniqueKeysBindings rest
end

/-- The value is read back from its encoding: with two units of fuel for every character
of the text, the decoder returns the value with its maps in key order and stops right
after the encoding. -/
def RoundTrips (v : GoValue) : Prop :=
  ∀ (fuel : Nat) (rest : List Char), Delimited rest →
    2 * ((encodeValue v).toList ++ rest).length < fuel →
    decodeValue fuel ((encodeValue v).toList ++ rest) = some (canon v, rest)

/-- The text of the members of an object, as `encodeValue` writes them between the braces. -/
def membersText (l : GoMap) : List Char :=
  (stringsJoin (l.map (fun kv => encodeString kv.1 ++ ":" ++ encodeValue kv.2)) ",").toList

/-- The text of the elements of an array, as `encodeValue` writes them between the
brackets. -/
def elementsText (xs : List GoValue) : List Char :=
  (stringsJoin (xs.map encodeValue) ",").toList

/-! ## The keys of a value at every level -/

mutual
/-- Every key that occurs in the value, at any depth: the keys of the value when it is a
map, and the keys occurring in its bindings or elements. -/
def allKeys (v : GoValue) : List String :=
  match v with
  | .null => []
  | .bool _ => []
  | .int _ => []
  | .str _ => []
  | .arr xs => allKeysElements xs
  | .obj m => allKeysBindings m
/-- The keys occurring in the elements of a list. -/
def allKeysElements (xs : List GoValue) : List String :=
  match xs with
  | [] => []
  | x :: rest => allKeys x ++ allKeysElements rest
/-- The keys of a map and the keys occurring in its values. -/
def allKeysBindings (m : List (String × GoValue)) : List String :=
  match m with
  | [] => []
  | (k, x) :: rest => k :: (allKeys x ++ allKeysBindings rest)
end

/-- The names that occur as keys in a dashboard payload: those of the payload itself, of
its `filters` object, of the time object, and of the chart, variable and filter objects. -/
def payloadKeyNames : List String :=
  ["name", "description", "groupId", "filters", "charts", "chartDensity",
   "sources", "variables", "time", "start", "end",
   "chartId", "row", "column", "height", "width",
   "property", "alias", "value", "required", "preferredSuggestions", "restricted", "NOT"]

/-! ## Lemmas on maps and on the range loop -/

theorem GoMap.get?_set_self (m : GoMap) (k : String) (v : GoValue) :
    GoMap.get? (GoMap.set m k v) k = some v := by
  induction m with
  | nil => simp [GoMap.set, GoMap.get?]
  | cons p rest ih =>
    obtain ⟨k', v'⟩ := p
    by_cases h : k' = k
    · simp [GoMap.set, GoMap.get?, h]
    · simp [GoMap.set, GoMap.get?, h, ih]

theorem GoMap.get?_set_ne (m : GoMap) (k k₀ : String) (v : GoValue) (hk : k ≠ k₀) :
    GoMap.get? (GoMap.set m k v) k₀ = GoMap.get? m k₀ := by
  induction m with
  | nil => simp [GoMap.set, GoMap.get?, hk]
  | cons p rest ih =>
    obtain ⟨k', v'⟩ := p
    by_cases h : k' = k
    · subst h
      simp [GoMap.set, GoMap.get?, hk]
    · by_cases h₀ : k' = k₀
      · subst h₀
        simp [GoMap.set, GoMap.get?, h]
      · simp [GoMap.set, GoMap.get?, h, h₀, ih]

theorem GoMap.mem_keys_set (m : GoMap) (k k₀ : String) (v : GoValue) :
    k₀ ∈ GoMap.keys (GoMap.set m k v) ↔ k₀ = k ∨ k₀ ∈ GoMap.keys m := by
  induction m with
  | nil => simp [GoMap.set, GoMap.keys]
  | cons p rest ih =>
    obtain ⟨k', v'⟩ := p
    by_cases h : k' = k
    · subst h
      simp [GoMap.set, GoMap.keys]
    · have ih' : k₀ ∈ List.map Prod.fst (GoMap.set rest k v) ↔
          k₀ = k ∨ k₀ ∈ List.map Prod.fst rest := ih
      simp only [GoMap.set, GoMap.keys, h, if_false, List.map_cons, List.mem_cons, ih']
      tauto

theorem GoMap.get?_isSome_iff (m : GoMap) (k : String) :
    (GoMap.get? m k).isSome ↔ k ∈ GoMap.keys m := by
  induction m with
  | nil => simp [GoMap.get?, GoMap.keys]
  | cons p rest ih =>
    obtain ⟨k', v'⟩ := p
    have ih' : (GoMap.get? rest k).isSome ↔ k ∈ List.map Prod.fst rest := ih
    by_cases h : k' = k
    · simp [GoMap.get?, GoMap.keys, h]
    · have h' : ¬ k = k' := fun e => h e.symm
      simp [GoMap.get?, GoMap.keys, h, h', ih']

theorem take_set_same {α : Type} (l : List α) (i : Nat) (a : α) :
    (l.set i a).take i = l.take i := by
  induction l generalizing i with
  | nil => simp
  | cons x rest ih =>
    cases i with
    | zero => simp
    | succ j => simp [ih]

theorem rangeAssign_take {α : Type} (item : α → GoMap) (xs : List α) :
    ∀ (i : Nat) (out : List GoMap), out.length = i + xs.length →
      rangeAssign item xs i out = out.take i ++ xs.map item := by
  induction xs with
  | nil =>
    intro i out h
    simp at h
    simp [rangeAssign, ← h]
  | cons x rest ih =>
    intro i out h
    have hlen : (out.set i (item x)).length = (i + 1) + rest.length := by
      simp [h]; omega
    have hi : i < out.length := by simp [h]
    rw [rangeAssign, ih (i + 1) _ hlen]
    have : List.take (i + 1) (out.set i (item x)) = out.take i ++ [item x] := by
      rw [List.take_succ]
      simp [List.getElem?_set, hi, take_set_same]
    rw [this]
    simp

theorem rangeAssign_eq_map {α : Type} (item : α → GoMap) (xs : List α) :
    rangeAssign item xs 0 (makeMaps xs.length) = xs.map item := by
  rw [rangeAssign_take item xs 0 _ (by simp [makeMaps])]
  simp

/-! ## C1 -/

/-- C1: for every string `v` and field name `k`, `validateChartsResolution v k` has no
warning; it has no error when `v` is one of `default`, `low`, `high`, `highest`, and
otherwise exactly one error, whose message is `v` followed by
` not allowed; must be one of: default, low, high, highest`. -/
theorem validateChartsResolution_spec (v k : String) :
    (v ∈ ["default", "low", "high", "highest"] →
      validateChartsResolution v k = ([], [])) ∧
    (v ∉ ["default", "low", "high", "highest"] →
      validateChartsResolution v k =
        ([], [v ++ " not allowed; must be one of: default, low, high, highest"])) := by
  have hjoin : stringsJoin allowedWords ", " = "default, low, high, highest" := by decide
  constructor
  · intro h
    simp only [List.mem_cons, List.mem_singleton, List.not_mem_nil, or_false] at h
    rcases h with h | h | h | h <;> subst h <;> rfl
  · intro h
    simp only [List.mem_cons, List.mem_singleton, List.not_mem_nil, or_false, not_or] at h
    obtain ⟨h1, h2, h3, h4⟩ := h
    have hmsg : v ++ " not allowed; must be one of: " ++ "default, low, high, highest" =
        v ++ " not allowed; must be one of: default, low, high, highest" := by
      rw [String.append_assoc]
      rfl
    simp only [validateChartsResolution, hjoin, hmsg]
    simp [validateChartsResolution.loop, allowedWords, h1, h2, h3, h4]

/-- Witness of C1 at the accepted value `high` and at the rejected value `HIGH`. -/
theorem validateChartsResolution_spec_witness :
    validateChartsResolution "high" "charts_resolution" = ([], []) ∧
    validateChartsResolution "HIGH" "charts_resolution" =
      ([], ["HIGH" ++ " not allowed; must be one of: default, low, high, highest"]) :=
  ⟨(validateChartsResolution_spec "high" "charts_resolution").1 (by decide),
   (validateChartsResolution_spec "HIGH" "charts_resolution").2 (by decide)⟩

theorem GoMap.get?_set (m : GoMap) (k k₀ : String) (v : GoValue) :
    GoMap.get? (GoMap.set m k v) k₀ = if k = k₀ then some v else GoMap.get? m k₀ := by
  by_cases h : k = k₀
  · subst h
    simp [GoMap.get?_set_self]
  · simp [h, GoMap.get?_set_ne m k k₀ v h]

theorem payload_get?_filters (nonAscii : Char → Char) (d : ResourceData) :
    GoMap.get? (getPayloadDashboard.payload nonAscii d) "filters" =
      if (getPayloadDashboard.all_filters d).length > 0 then
        some (.obj (getPayloadDashboard.all_filters d))
      else none := by
  unfold getPayloadDashboard.payload
  split_ifs <;> simp [GoMap.get?_set, GoMap.get?]

theorem payload_get?_charts (nonAscii : Char → Char) (d : ResourceData) :
    GoMap.get? (getPayloadDashboard.payload nonAscii d) "charts" =
      if (getDashboardCharts d).length > 0 then some (mapList (getDashboardCharts d))
      else none := by
  unfold getPayloadDashboard.payload
  split_ifs <;> simp [GoMap.get?_set, GoMap.get?]

theorem payload_get?_chartDensity (nonAscii : Char → Char) (d : ResourceData) :
    GoMap.get? (getPayloadDashboard.payload nonAscii d) "chartDensity" =
      if (getOkString d.charts_resolution).2 then
        some (.str (stringsToUpper nonAscii (getOkString d.charts_resolution).1))
      else none := by
  unfold getPayloadDashboard.payload
  split_ifs <;> simp [GoMap.get?_set, GoMap.get?]

theorem all_filters_get?_sources (d : ResourceData) :
    GoMap.get? (getPayloadDashboard.all_filters d) "sources" =
      if (getDashboardFilters d).length > 0 then some (mapList (getDashboardFilters d))
      else none := by
  unfold getPayloadDashboard.all_filters
  split_ifs <;> simp [GoMap.get?_set, GoMap.get?]

theorem all_filters_get?_variables (d : ResourceData) :
    GoMap.get? (getPayloadDashboard.all_filters d) "variables" =
      if (getDashboardVariables d).length > 0 then some (mapList (getDashboardVariables d))
      else none := by
  unfold getPayloadDashboard.all_filters
  split_ifs <;> simp [GoMap.get?_set, GoMap.get?]

theorem all_filters_get?_time (d : ResourceData) :
    GoMap.get? (getPayloadDashboard.all_filters d) "time" =
      if (getDashboardTime d).length > 0 then some (.obj (getDashboardTime d))
      else none := by
  unfold getPayloadDashboard.all_filters
  split_ifs <;> simp [GoMap.get?_set, GoMap.get?]

theorem GoMap.set_length_pos (m : GoMap) (k : String) (v : GoValue) :
    (GoMap.set m k v).length > 0 := by
  cases m with
  | nil => simp [GoMap.set]
  | cons p rest =>
    obtain ⟨k', v'⟩ := p
    by_cases h : k' = k <;> simp [GoMap.set, h]

theorem all_filters_length_pos_iff (d : ResourceData) :
    (getPayloadDashboard.all_filters d).length > 0 ↔
      ((getDashboardFilters d).length > 0 ∨ (getDashboardVariables d).length > 0 ∨
        (getDashboardTime d).length > 0) := by
  unfold getPayloadDashboard.all_filters
  by_cases h1 : (getDashboardFilters d).length > 0 <;>
  by_cases h2 : (getDashboardVariables d).length > 0 <;>
  by_cases h3 : (getDashboardTime d).length > 0 <;>
  simp only [h1, h2, h3, if_true, if_false, GoMap.set_length_pos, true_or, or_true, or_self,
    iff_true]
  simp

theorem filtersTime_eq (nonAscii : Char → Char) (d : ResourceData) :
    filtersTime (getPayloadDashboard.payload nonAscii d) =
      if (getDashboardTime d).length > 0 then some (.obj (getDashboardTime d)) else none := by
  unfold filtersTime
  rw [payload_get?_filters]
  by_cases h : (getDashboardTime d).length > 0
  · have hall : (getPayloadDashboard.all_filters d).length > 0 :=
      (all_filters_length_pos_iff d).2 (Or.inr (Or.inr h))
    simp only [hall, h, if_true, GoValue.field?]
    rw [all_filters_get?_time]
    simp [h]
  · by_cases hall : (getPayloadDashboard.all_filters d).length > 0
    · simp only [hall, h, if_true, if_false, GoValue.field?]
      rw [all_filters_get?_time]
      simp [h]
    · simp only [hall, h, if_false]

/-! ## C2 -/

/-- C2: for the configuration name `D1`, group `G1`, resolution `high`, description unset
and no chart, variable, filter or time field, `getPayloadDashboard` returns without error;
the map it encodes has exactly the bindings name `D1`, description empty, groupId `G1`,
chartDensity `HIGH`, and the bytes returned are the JSON object of these four members
(written, as `encoding/json` does, with the keys in sorted order). -/
theorem getPayloadDashboard_scenarioD1 (nonAscii : Char → Char) :
    getPayloadDashboard.payload nonAscii scenarioD1 =
      [("name", .str "D1"), ("description", .str ""), ("groupId", .str "G1"),
        ("chartDensity", .str "HIGH")] ∧
    getPayloadDashboard nonAscii jsonMarshal scenarioD1 =
      jsonMarshal (.obj [("name", .str "D1"), ("description", .str ""),
        ("groupId", .str "G1"), ("chartDensity", .str "HIGH")]) ∧
    getPayloadDashboard nonAscii jsonMarshal scenarioD1 =
      .ok "\x7b\"chartDensity\":\"HIGH\",\"description\":\"\",\"groupId\":\"G1\",\"name\":\"D1\"\x7d" :=
  ⟨rfl, rfl, rfl⟩

/-! ## C3 -/

/-- C3, as stated, fails: `rangeOnly` sets `time_range` to the non-empty string `-1h` and
leaves `start_time` and `end_time` unset, and its payload has no `filters.time` object
(it has no `filters` key at all), because `time_span_type` is not `relative`. -/
theorem time_range_alone_counterexample :
    rangeOnly.time_range = some "-1h" ∧ "-1h" ≠ "" ∧
    rangeOnly.start_time = none ∧ rangeOnly.end_time = none ∧
    filtersTime (getPayloadDashboard.payload id rangeOnly) = none ∧
    GoMap.get? (getPayloadDashboard.payload id rangeOnly) "filters" = none :=
  ⟨rfl, by decide, rfl, rfl, rfl, rfl⟩

/-- C3, amended: for every dashboard configuration whose `time_span_type` is `relative`, in
which `time_range` is set to a non-empty string `r` and `start_time` and `end_time` are
unset, the payload contains a `filters.time` object whose `start` is `r` and whose `end` is
`Now`. -/
theorem relative_time_in_payload (nonAscii : Char → Char) (d : ResourceData) (r : String)
    (hspan : d.time_span_type = some "relative") (hr : d.time_range = some r)
    (hne : r ≠ "") (_hs : d.start_time = none) (_he : d.end_time = none) :
    ∃ t, filtersTime (getPayloadDashboard.payload nonAscii d) = some (.obj t) ∧
      GoMap.get? t "start" = some (.str r) ∧ GoMap.get? t "end" = some (.str "Now") := by
  have ht : getDashboardTime d = [("start", .str r), ("end", .str "Now")] := by
    simp [getDashboardTime, getOkString, hspan, hr, hne, GoMap.set]
  refine ⟨[("start", .str r), ("end", .str "Now")], ?_, ?_, ?_⟩
  · rw [filtersTime_eq, ht]
    simp
  · simp [GoMap.get?]
  · simp [GoMap.get?]

/-- Witness of the amended C3 at `relativeWindow`. -/
theorem relative_time_in_payload_witness :
    ∃ t, filtersTime (getPayloadDashboard.payload id relativeWindow) = some (.obj t) ∧
      GoMap.get? t "start" = some (.str "-1h") ∧ GoMap.get? t "end" = some (.str "Now") :=
  relative_time_in_payload id relativeWindow "-1h" rfl rfl (by decide) rfl rfl

/-! ## C4 -/

/-- C4, as stated, fails: `boundsOnly` gives the absolute bounds 1500000000 and 1500003600
and no `time_range`, and its payload has no `filters.time` object, because
`time_span_type` is unset. It also fails with `time_span_type` set to `absolute`: at
`epochStart`, whose `start_time` is 0, the time object has no `start`; at `hugeStart`, whose
`start_time` is 9223372036854776, the `start` is the wrapped product -9223372036854775616. -/
theorem absolute_bounds_alone_counterexample :
    (boundsOnly.start_time = some 1500000000 ∧ boundsOnly.end_time = some 1500003600 ∧
      boundsOnly.time_range = none ∧
      filtersTime (getPayloadDashboard.payload id boundsOnly) = none ∧
      GoMap.get? (getPayloadDashboard.payload id boundsOnly) "filters" = none) ∧
    (epochStart.start_time = some 0 ∧ epochStart.end_time = some 1500003600 ∧
      epochStart.time_range = none ∧
      filtersTime (getPayloadDashboard.payload id epochStart) =
        some (.obj [("end", .int 1500003600000)])) ∧
    (hugeStart.start_time = some 9223372036854776 ∧ hugeStart.end_time = some 1500003600 ∧
      hugeStart.time_range = none ∧
      filtersTime (getPayloadDashboard.payload id hugeStart) =
        some (.obj [("start", .int (-9223372036854775616)), ("end", .int 1500003600000)]) ∧
      (9223372036854776 : Int) * 1000 ≠ -9223372036854775616) :=
  ⟨⟨rfl, rfl, rfl, rfl, rfl⟩, ⟨rfl, rfl, rfl, rfl⟩, ⟨rfl, rfl, rfl, rfl, by decide⟩⟩

theorem wrapInt64_of_fits (x : Int) (hlo : -2 ^ 63 ≤ x) (hhi : x < 2 ^ 63) :
    wrapInt64 x = x := by
  unfold wrapInt64
  have h : (x + 2 ^ 63) % 2 ^ 64 = x + 2 ^ 63 := by
    apply Int.emod_eq_of_lt <;> omega
  omega

/-- C4, amended: for every dashboard configuration whose `time_span_type` is a non-empty
string other than `relative`, which gives non-zero absolute bounds `start_time = s` and
`end_time = e` with `s * 1000` and `e * 1000` in the range of a 64-bit `int`, and no
`time_range`, the payload contains a `filters.time` object whose `start` is `s * 1000` and
whose `end` is `e * 1000`. -/
theorem absolute_time_in_payload (nonAscii : Char → Char) (d : ResourceData)
    (ty : String) (s e : Int)
    (hspan : d.time_span_type = some ty) (hty : ty ≠ "") (hrel : ty ≠ "relative")
    (hs : d.start_time = some s) (he : d.end_time = some e) (_hr : d.time_range = none)
    (hs0 : s ≠ 0) (he0 : e ≠ 0)
    (hslo : -2 ^ 63 ≤ s * 1000) (hshi : s * 1000 < 2 ^ 63)
    (helo : -2 ^ 63 ≤ e * 1000) (hehi : e * 1000 < 2 ^ 63) :
    ∃ t, filtersTime (getPayloadDashboard.payload nonAscii d) = some (.obj t) ∧
      GoMap.get? t "start" = some (.int (s * 1000)) ∧
      GoMap.get? t "end" = some (.int (e * 1000)) := by
  have ht : getDashboardTime d = [("start", .int (s * 1000)), ("end", .int (e * 1000))] := by
    simp [getDashboardTime, getOkString, getOkInt, hspan, hty, hrel, hs, he, hs0, he0,
      GoMap.set, mulInt, wrapInt64_of_fits _ hslo hshi, wrapInt64_of_fits _ helo hehi]
  refine ⟨[("start", .int (s * 1000)), ("end", .int (e * 1000))], ?_, ?_, ?_⟩
  · rw [filtersTime_eq, ht]
    simp
  · simp [GoMap.get?]
  · simp [GoMap.get?]

/-- Witness of the amended C4 at `absoluteWindow`. -/
theorem absolute_time_in_payload_witness :
    ∃ t, filtersTime (getPayloadDashboard.payload id absoluteWindow) = some (.obj t) ∧
      GoMap.get? t "start" = some (.int (1500000000 * 1000)) ∧
      GoMap.get? t "end" = some (.int (1500003600 * 1000)) :=
  absolute_time_in_payload id absoluteWindow "absolute" 1500000000 1500003600 rfl
    (by decide) (by decide) rfl rfl rfl (by decide) (by decide) (by decide) (by decide)
    (by decide) (by decide)

/-! ## C5 -/

/-- C5, as stated, fails: `relativeWindow` has zero charts, zero variables and zero
filters, and its payload has a `filters` key, which carries the time window. -/
theorem no_sets_but_time_counterexample :
    relativeWindow.chart = [] ∧ relativeWindow.variable_ = [] ∧ relativeWindow.filter = [] ∧
    "filters" ∈ GoMap.keys (getPayloadDashboard.payload id relativeWindow) ∧
    GoMap.get? (getPayloadDashboard.payload id relativeWindow) "filters" =
      some (.obj [("time", .obj [("start", .str "-1h"), ("end", .str "Now")])]) := by
  refine ⟨rfl, rfl, rfl, ?_, rfl⟩
  decide

theorem getDashboardCharts_eq_map (d : ResourceData) :
    getDashboardCharts d = d.chart.map getDashboardCharts.item := by
  unfold getDashboardCharts
  exact rangeAssign_eq_map _ _

theorem getDashboardVariables_eq_map (d : ResourceData) :
    getDashboardVariables d = d.variable_.map getDashboardVariables.item := by
  unfold getDashboardVariables
  exact rangeAssign_eq_map _ _

theorem getDashboardFilters_eq_map (d : ResourceData) :
    getDashboardFilters d = d.filter.map getDashboardFilters.item := by
  unfold getDashboardFilters
  exact rangeAssign_eq_map _ _

/-- C5, amended: for every dashboard configuration with zero charts, zero variables and
zero filters, the payload contains no `charts` key, and it contains no `filters` key if and
only if the time object is empty (`getDashboardTime` returns no entry). -/
theorem no_sets_no_time_no_keys (nonAscii : Char → Char) (d : ResourceData)
    (hc : d.chart = []) (hv : d.variable_ = []) (hf : d.filter = []) :
    "charts" ∉ GoMap.keys (getPayloadDashboard.payload nonAscii d) ∧
    ("filters" ∉ GoMap.keys (getPayloadDashboard.payload nonAscii d) ↔
      getDashboardTime d = []) := by
  have hcharts : (getDashboardCharts d).length = 0 := by
    simp [getDashboardCharts_eq_map, hc]
  have hall : (getPayloadDashboard.all_filters d).length > 0 ↔ getDashboardTime d ≠ [] := by
    rw [all_filters_length_pos_iff]
    simp [getDashboardFilters_eq_map, getDashboardVariables_eq_map, hv, hf, List.length_pos]
  constructor
  · rw [← GoMap.get?_isSome_iff, payload_get?_charts]
    simp [hcharts]
  · rw [← GoMap.get?_isSome_iff, payload_get?_filters]
    by_cases ht : getDashboardTime d = []
    · have hn : ¬ (getPayloadDashboard.all_filters d).length > 0 := fun h => hall.1 h ht
      simp [hn, ht]
    · have hp : (getPayloadDashboard.all_filters d).length > 0 := hall.2 ht
      simp [hp, ht]

/-- Witness of the amended C5 at `scenarioD1`, which has no time field, and at
`relativeWindow`, which has a relative time window. -/
theorem no_sets_no_time_no_keys_witness :
    ("charts" ∉ GoMap.keys (getPayloadDashboard.payload id scenarioD1) ∧
      "filters" ∉ GoMap.keys (getPayloadDashboard.payload id scenarioD1)) ∧
    ("charts" ∉ GoMap.keys (getPayloadDashboard.payload id relativeWindow) ∧
      getDashboardTime relativeWindow ≠ []) :=
  ⟨⟨(no_sets_no_time_no_keys id scenarioD1 rfl rfl rfl).1,
    (no_sets_no_time_no_keys id scenarioD1 rfl rfl rfl).2.2 rfl⟩,
   ⟨(no_sets_no_time_no_keys id relativeWindow rfl rfl rfl).1,
    fun h => ((no_sets_no_time_no_keys id relativeWindow rfl rfl rfl).2.2 h) (by decide)⟩⟩

/-! ## C6 -/

theorem getDashboardCharts.item_keys (c : ChartEntry) (k : String) :
    k ∈ GoMap.keys (getDashboardCharts.item c) ↔
      k ∈ ["chartId", "row", "column", "width", "height"] := by
  simp only [getDashboardCharts.item, GoMap.mem_keys_set]
  simp only [GoMap.keys, List.map_nil, List.mem_cons, List.mem_singleton, List.not_mem_nil,
    or_false]
  tauto

/-- C6: `getDashboardCharts` maps the list of chart entries to a list of the same length in
the same order; the `i`-th object has exactly the five keys `chartId`, `row`, `column`,
`width`, `height`, holding the `i`-th entry's `chart_id`, `row`, `column`, `width` and
`height` unchanged; the payload's `charts` value is that list whenever it is non-empty. The
entry (`C1`, 0, 0, 12, 1), which is what a chart block that only names `C1` reads as with the
schema defaults 12 and 1, yields the one object chartId `C1`, row 0, column 0, width 12,
height 1. -/
theorem getDashboardCharts_spec (nonAscii : Char → Char) (d : ResourceData) :
    (getDashboardCharts d).length = d.chart.length ∧
    (∀ (i : Nat) (c : ChartEntry), d.chart[i]? = some c →
      ∃ item, (getDashboardCharts d)[i]? = some item ∧
        (∀ k, k ∈ GoMap.keys item ↔ k ∈ ["chartId", "row", "column", "width", "height"]) ∧
        item.length = 5 ∧
        GoMap.get? item "chartId" = some (.str c.chart_id) ∧
        GoMap.get? item "row" = some (.int c.row) ∧
        GoMap.get? item "column" = some (.int c.column) ∧
        GoMap.get? item "width" = some (.int c.width) ∧
        GoMap.get? item "height" = some (.int c.height)) ∧
    (d.chart ≠ [] →
      GoMap.get? (getPayloadDashboard.payload nonAscii d) "charts" =
        some (.arr ((getDashboardCharts d).map GoValue.obj))) ∧
    (d.chart = [readChart ⟨"C1", none, none, none, none⟩] →
      d.chart = [⟨"C1", 0, 0, 12, 1⟩] ∧
      getDashboardCharts d =
        [[("chartId", .str "C1"), ("row", .int 0), ("column", .int 0), ("height", .int 1),
          ("width", .int 12)]]) := by
  refine ⟨?_, ?_, ?_, ?_⟩
  · simp [getDashboardCharts_eq_map]
  · intro i c hc
    refine ⟨getDashboardCharts.item c, ?_, getDashboardCharts.item_keys c, ?_⟩
    · simp [getDashboardCharts_eq_map, hc]
    · simp [getDashboardCharts.item, GoMap.set, GoMap.get?]
  · intro hne
    rw [payload_get?_charts]
    have hpos : (getDashboardCharts d).length > 0 := by
      rw [getDashboardCharts_eq_map, List.length_map]
      exact List.length_pos.2 hne
    simp [hpos, mapList]
  · intro h
    refine ⟨h, ?_⟩
    rw [getDashboardCharts_eq_map, h]
    rfl

/-- Witness of C6 at `fullDashboard`, whose one chart block only names `C1`. -/
theorem getDashboardCharts_spec_witness :
    getDashboardCharts fullDashboard =
      [[("chartId", .str "C1"), ("row", .int 0), ("column", .int 0), ("height", .int 1),
        ("width", .int 12)]] ∧
    GoMap.get? (getPayloadDashboard.payload id fullDashboard) "charts" =
      some (.arr ((getDashboardCharts fullDashboard).map GoValue.obj)) :=
  ⟨((getDashboardCharts_spec id fullDashboard).2.2.2 (by rfl)).2,
   (getDashboardCharts_spec id fullDashboard).2.2.1 (by simp [fullDashboard])⟩

/-! ## C7 -/

/-- C7: the payload has the key `filters` if and only if the filter list, the variable list
or the time object is non-empty; inside it, `sources` is present iff the filter list is
non-empty and then holds the list built by `getDashboardFilters`, `variables` is present iff
the variable list is non-empty and then holds the list built by `getDashboardVariables`,
and `time` is present iff the time object is non-empty and then holds that object. -/
theorem filters_key_spec (nonAscii : Char → Char) (d : ResourceData) :
    ("filters" ∈ GoMap.keys (getPayloadDashboard.payload nonAscii d) ↔
      (d.filter ≠ [] ∨ d.variable_ ≠ [] ∨ getDashboardTime d ≠ [])) ∧
    (∀ f, GoMap.get? (getPayloadDashboard.payload nonAscii d) "filters" = some f →
      (d.filter ≠ [] →
        f.field? "sources" = some (.arr ((getDashboardFilters d).map GoValue.obj))) ∧
      (d.filter = [] → f.field? "sources" = none) ∧
      (d.variable_ ≠ [] →
        f.field? "variables" = some (.arr ((getDashboardVariables d).map GoValue.obj))) ∧
      (d.variable_ = [] → f.field? "variables" = none) ∧
      (getDashboardTime d ≠ [] → f.field? "time" = some (.obj (getDashboardTime d))) ∧
      (getDashboardTime d = [] → f.field? "time" = none)) := by
  have hfl : (getDashboardFilters d).length > 0 ↔ d.filter ≠ [] := by
    rw [getDashboardFilters_eq_map, List.length_map]
    exact List.length_pos
  have hvs : (getDashboardVariables d).length > 0 ↔ d.variable_ ≠ [] := by
    rw [getDashboardVariables_eq_map, List.length_map]
    exact List.length_pos
  have htm : (getDashboardTime d).length > 0 ↔ getDashboardTime d ≠ [] := List.length_pos
  constructor
  · rw [← GoMap.get?_isSome_iff, payload_get?_filters, ← hfl, ← hvs, ← htm,
      ← all_filters_length_pos_iff]
    by_cases h : (getPayloadDashboard.all_filters d).length > 0 <;> simp [h]
  · intro f hf
    rw [payload_get?_filters] at hf
    by_cases h : (getPayloadDashboard.all_filters d).length > 0
    · simp only [h, if_true, Option.some.injEq] at hf
      subst hf
      simp only [GoValue.field?, all_filters_get?_sources, all_filters_get?_variables,
        all_filters_get?_time, mapList]
      refine ⟨?_, ?_, ?_, ?_, ?_, ?_⟩
      · intro hne
        simp [hfl.2 hne]
      · intro he
        have : ¬ (getDashboardFilters d).length > 0 := fun hp => hfl.1 hp he
        simp [this]
      · intro hne
        simp [hvs.2 hne]
      · intro he
        have : ¬ (getDashboardVariables d).length > 0 := fun hp => hvs.1 hp he
        simp [this]
      · intro hne
        simp [htm.2 hne]
      · intro he
        simp [he]
    · simp [h] at hf

/-- Witness of C7 at `fullDashboard`, where the three parts are non-empty. -/
theorem filters_key_spec_witness :
    "filters" ∈ GoMap.keys (getPayloadDashboard.payload id fullDashboard) ∧
    (GoValue.obj (getPayloadDashboard.all_filters fullDashboard)).field? "sources" =
      some (.arr ((getDashboardFilters fullDashboard).map GoValue.obj)) ∧
    (GoValue.obj (getPayloadDashboard.all_filters fullDashboard)).field? "variables" =
      some (.arr ((getDashboardVariables fullDashboard).map GoValue.obj)) ∧
    (GoValue.obj (getPayloadDashboard.all_filters fullDashboard)).field? "time" =
      some (.obj [("start", .str "-1h"), ("end", .str "Now")]) :=
  ⟨(filters_key_spec id fullDashboard).1.2 (Or.inl (by simp [fullDashboard])),
   ((filters_key_spec id fullDashboard).2
      (.obj (getPayloadDashboard.all_filters fullDashboard)) (by rfl)).1
      (by simp [fullDashboard]),
   ((filters_key_spec id fullDashboard).2
      (.obj (getPayloadDashboard.all_filters fullDashboard)) (by rfl)).2.2.1
      (by simp [fullDashboard]),
   ((filters_key_spec id fullDashboard).2
      (.obj (getPayloadDashboard.all_filters fullDashboard)) (by rfl)).2.2.2.2.1
      (by simp [fullDashboard, getDashboardTime, getOkString, GoMap.set])⟩

/-! ## C8 -/

theorem validateChartsResolution_errors_nil (v k : String)
    (h : (validateChartsResolution v k).2 = []) :
    v = "default" ∨ v = "low" ∨ v = "high" ∨ v = "highest" := by
  by_contra hcon
  simp only [not_or] at hcon
  obtain ⟨h1, h2, h3, h4⟩ := hcon
  simp [validateChartsResolution, validateChartsResolution.loop, allowedWords, h1, h2, h3,
    h4] at h

/-- C8: the payload has the key `chartDensity` if and only if `charts_resolution` is set
to a non-empty string, and then its value is that string upper-cased by `strings.ToUpper`;
hence for every value that `validateChartsResolution` accepts the `chartDensity` is one of
`DEFAULT`, `LOW`, `HIGH`, `HIGHEST`. -/
theorem chartDensity_spec (nonAscii : Char → Char) (d : ResourceData) :
    ("chartDensity" ∈ GoMap.keys (getPayloadDashboard.payload nonAscii d) ↔
      ∃ s, d.charts_resolution = some s ∧ s ≠ "") ∧
    (∀ s, d.charts_resolution = some s → s ≠ "" →
      GoMap.get? (getPayloadDashboard.payload nonAscii d) "chartDensity" =
        some (.str (stringsToUpper nonAscii s))) ∧
    (∀ s k, d.charts_resolution = some s → (validateChartsResolution s k).2 = [] →
      GoMap.get? (getPayloadDashboard.payload nonAscii d) "chartDensity" =
          some (.str "DEFAULT") ∨
      GoMap.get? (getPayloadDashboard.payload nonAscii d) "chartDensity" =
          some (.str "LOW") ∨
      GoMap.get? (getPayloadDashboard.payload nonAscii d) "chartDensity" =
          some (.str "HIGH") ∨
      GoMap.get? (getPayloadDashboard.payload nonAscii d) "chartDensity" =
          some (.str "HIGHEST")) := by
  have hset : ∀ s, d.charts_resolution = some s → s ≠ "" →
      GoMap.get? (getPayloadDashboard.payload nonAscii d) "chartDensity" =
        some (.str (stringsToUpper nonAscii s)) := by
    intro s hs hne
    rw [payload_get?_chartDensity]
    simp [getOkString, hs, hne]
  refine ⟨?_, hset, ?_⟩
  · rw [← GoMap.get?_isSome_iff, payload_get?_chartDensity]
    cases hres : d.charts_resolution with
    | none => simp [getOkString]
    | some s =>
      by_cases hne : s = ""
      · simp [getOkString, hne]
      · simp [getOkString, hne]
  · intro s k hs hok
    rcases validateChartsResolution_errors_nil s k hok with h | h | h | h
    · subst h
      exact Or.inl (hset _ hs (by decide))
    · subst h
      exact Or.inr (Or.inl (hset _ hs (by decide)))
    · subst h
      exact Or.inr (Or.inr (Or.inl (hset _ hs (by decide))))
    · subst h
      exact Or.inr (Or.inr (Or.inr (hset _ hs (by decide))))

/-- Witness of C8 at `scenarioD1`, whose `charts_resolution` is `high`. -/
theorem chartDensity_spec_witness :
    "chartDensity" ∈ GoMap.keys (getPayloadDashboard.payload id scenarioD1) ∧
    GoMap.get? (getPayloadDashboard.payload id scenarioD1) "chartDensity" =
      some (.str "HIGH") :=
  ⟨(chartDensity_spec id scenarioD1).1.2 ⟨"high", rfl, by decide⟩,
   (chartDensity_spec id scenarioD1).2.1 "high" rfl (by decide)⟩

/-! ## C9 -/

/-- C9: for every dashboard configuration the payload has the keys `name`, `description`
and `groupId`, equal to the configuration's name, its description (the empty string when
unset) and its `dashboard_group`. -/
theorem direct_fields_spec (nonAscii : Char → Char) (d : ResourceData) :
    GoMap.get? (getPayloadDashboard.payload nonAscii d) "name" = some (.str d.name) ∧
    GoMap.get? (getPayloadDashboard.payload nonAscii d) "description" =
      some (.str (d.description.getD "")) ∧
    GoMap.get? (getPayloadDashboard.payload nonAscii d) "groupId" =
      some (.str d.dashboard_group) := by
  have hdesc : getString d.description = d.description.getD "" := by
    cases d.description <;> rfl
  unfold getPayloadDashboard.payload
  refine ⟨?_, ?_, ?_⟩ <;> split_ifs <;> simp [GoMap.get?_set, GoMap.get?, hdesc]

/-! ## C10 -/

/-- C10: for every resource id and token, `dashboardCreate` calls the shared helper with
the collection URL `https://api.signalfx.com/v2/dashboard`; `dashboardRead`,
`dashboardUpdate` and `dashboardDelete` call it with `https://api.signalfx.com/v2/dashboard/`
followed by the id; create and update pass the payload that `getPayloadDashboard` returned,
and all four pass the configured token unchanged. -/
theorem crud_dispatch_spec {ρ : Type} (nonAscii : Char → Char)
    (marshal : GoValue → Except String String) (d : ResourceData) (meta : signalformConfig) :
    (∀ (resourceCreate : String → String → String → ResourceData → ρ) (payload : String),
      getPayloadDashboard nonAscii marshal d = .ok payload →
      dashboardCreate nonAscii marshal resourceCreate d meta =
        .delegated (resourceCreate "https://api.signalfx.com/v2/dashboard" meta.SfxToken
          payload d)) ∧
    (∀ (resourceRead : String → String → ResourceData → ρ),
      dashboardRead resourceRead d meta =
        .delegated (resourceRead ("https://api.signalfx.com/v2/dashboard/" ++ d.id)
          meta.SfxToken d)) ∧
    (∀ (resourceUpdate : String → String → String → ResourceData → ρ) (payload : String),
      getPayloadDashboard nonAscii marshal d = .ok payload →
      dashboardUpdate nonAscii marshal resourceUpdate d meta =
        .delegated (resourceUpdate ("https://api.signalfx.com/v2/dashboard/" ++ d.id)
          meta.SfxToken payload d)) ∧
    (∀ (resourceDelete : String → String → ResourceData → ρ),
      dashboardDelete resourceDelete d meta =
        .delegated (resourceDelete ("https://api.signalfx.com/v2/dashboard/" ++ d.id)
          meta.SfxToken d)) := by
  have hurl : DASHBOARD_API_URL ++ "/" ++ d.id =
      "https://api.signalfx.com/v2/dashboard/" ++ d.id := by
    have : DASHBOARD_API_URL ++ "/" = "https://api.signalfx.com/v2/dashboard/" := by decide
    rw [this]
  refine ⟨?_, ?_, ?_, ?_⟩
  · intro resourceCreate payload hp
    simp only [dashboardCreate, hp]
    rfl
  · intro resourceRead
    simp only [dashboardRead, hurl]
  · intro resourceUpdate payload hp
    simp only [dashboardUpdate, hp, hurl]
  · intro resourceDelete
    simp only [dashboardDelete, hurl]

/-- Witness of C10 at `fullDashboard` (id `Dx1`) with the token `tok` and helpers that
record their arguments. -/
theorem crud_dispatch_spec_witness :
    dashboardCreate id jsonMarshal recordCall fullDashboard ⟨"tok"⟩ =
      .delegated ("https://api.signalfx.com/v2/dashboard", "tok",
        encodeValue (.obj (getPayloadDashboard.payload id fullDashboard))) ∧
    dashboardRead recordCallNoPayload fullDashboard ⟨"tok"⟩ =
      .delegated ("https://api.signalfx.com/v2/dashboard/" ++ "Dx1", "tok") ∧
    dashboardUpdate id jsonMarshal recordCall fullDashboard ⟨"tok"⟩ =
      .delegated ("https://api.signalfx.com/v2/dashboard/" ++ "Dx1", "tok",
        encodeValue (.obj (getPayloadDashboard.payload id fullDashboard))) ∧
    dashboardDelete recordCallNoPayload fullDashboard ⟨"tok"⟩ =
      .delegated ("https://api.signalfx.com/v2/dashboard/" ++ "Dx1", "tok") :=
  ⟨(crud_dispatch_spec id jsonMarshal fullDashboard ⟨"tok"⟩).1 recordCall _ rfl,
   (crud_dispatch_spec id jsonMarshal fullDashboard ⟨"tok"⟩).2.1 recordCallNoPayload,
   (crud_dispatch_spec id jsonMarshal fullDashboard ⟨"tok"⟩).2.2.1 recordCall _ rfl,
   (crud_dispatch_spec id jsonMarshal fullDashboard ⟨"tok"⟩).2.2.2 recordCallNoPayload⟩

/-! ## C11 -/

/-- C11: in `dashboardCreate` and `dashboardUpdate`, whenever the construction of the
payload fails with cause `c`, the operation returns an error whose message is
`Failed creating json payload: ` followed by `c`, whatever the shared helper is, and the
result is not a result of the helper: the helper is not called and nothing is sent. -/
theorem payload_failure_spec {ρ : Type} (nonAscii : Char → Char)
    (marshal : GoValue → Except String String) (d : ResourceData) (meta : signalformConfig)
    (c : String) (hfail : getPayloadDashboard nonAscii marshal d = .error c) :
    (∀ (resourceCreate : String → String → String → ResourceData → ρ),
      dashboardCreate nonAscii marshal resourceCreate d meta =
          .failed ("Failed creating json payload: " ++ c) ∧
      ∀ r, dashboardCreate nonAscii marshal resourceCreate d meta ≠ .delegated r) ∧
    (∀ (resourceUpdate : String → String → String → ResourceData → ρ),
      dashboardUpdate nonAscii marshal resourceUpdate d meta =
          .failed ("Failed creating json payload: " ++ c) ∧
      ∀ r, dashboardUpdate nonAscii marshal resourceUpdate d meta ≠ .delegated r) := by
  constructor
  · intro resourceCreate
    have h : dashboardCreate nonAscii marshal resourceCreate d meta =
        .failed ("Failed creating json payload: " ++ c) := by
      simp only [dashboardCreate, hfail]
    refine ⟨h, ?_⟩
    intro r hr
    rw [h] at hr
    cases hr
  · intro resourceUpdate
    have h : dashboardUpdate nonAscii marshal resourceUpdate d meta =
        .failed ("Failed creating json payload: " ++ c) := by
      simp only [dashboardUpdate, hfail]
    refine ⟨h, ?_⟩
    intro r hr
    rw [h] at hr
    cases hr

/-- Witness of C11 at `fullDashboard` with an encoder that fails and helpers that record
their arguments. -/
theorem payload_failure_spec_witness :
    dashboardCreate id failingMarshal recordCall fullDashboard ⟨"tok"⟩ =
      .failed ("Failed creating json payload: " ++ "json: unsupported value") ∧
    dashboardUpdate id failingMarshal recordCall fullDashboard ⟨"tok"⟩ =
      .failed ("Failed creating json payload: " ++ "json: unsupported value") :=
  ⟨((payload_failure_spec id failingMarshal fullDashboard ⟨"tok"⟩ "json: unsupported value"
      rfl).1 recordCall).1,
   ((payload_failure_spec id failingMarshal fullDashboard ⟨"tok"⟩ "json: unsupported value"
      rfl).2 recordCall).1⟩

/-! ## The three branches of getDashboardTime -/

theorem ite_length_pos_self {α : Type} (l : List α) :
    (if l.length > 0 then l else []) = l := by
  cases l <;> simp

theorem getOkString_ok (field : Option String) (h : (getOkString field).2 = true) :
    field = some (getOkString field).1 ∧ (getOkString field).1 ≠ "" := by
  cases field with
  | none => simp [getOkString] at h
  | some s => simpa [getOkString] using h

theorem getOkInt_ok (field : Option Int) (h : (getOkInt field).2 = true) :
    field = some (getOkInt field).1 ∧ (getOkInt field).1 ≠ 0 := by
  cases field with
  | none => simp [getOkInt] at h
  | some n => simpa [getOkInt] using h

theorem getOkInt_snd (field : Option Int) :
    (getOkInt field).2 = true ↔ field.getD 0 ≠ 0 := by
  cases field with
  | none => simp [getOkInt]
  | some n => simp [getOkInt]

theorem getDashboardTime_unset (d : ResourceData)
    (h : (getOkString d.time_span_type).2 = false) : getDashboardTime d = [] := by
  unfold getDashboardTime
  simp [h]

theorem getDashboardTime_relative (d : ResourceData)
    (h : (getOkString d.time_span_type).2 = true)
    (hrel : (getOkString d.time_span_type).1 = "relative") :
    getDashboardTime d =
      if (getOkString d.time_range).2 = true then
        [("start", .str (getOkString d.time_range).1), ("end", .str "Now")]
      else [] := by
  unfold getDashboardTime
  simp only [h, hrel, if_true, ite_length_pos_self]
  by_cases hr : (getOkString d.time_range).2 = true
  · simp [hr, GoMap.set]
  · simp [hr]

theorem getDashboardTime_absolute (d : ResourceData)
    (h : (getOkString d.time_span_type).2 = true)
    (hrel : (getOkString d.time_span_type).1 ≠ "relative") :
    getDashboardTime d =
      (if (getOkInt d.start_time).2 = true then
        [("start", GoValue.int (mulInt (getOkInt d.start_time).1 1000))] else []) ++
      (if (getOkInt d.end_time).2 = true then
        [("end", GoValue.int (mulInt (getOkInt d.end_time).1 1000))] else []) := by
  unfold getDashboardTime
  simp only [h, hrel, if_true, if_false, ite_length_pos_self]
  by_cases hs : (getOkInt d.start_time).2 = true <;>
    by_cases he : (getOkInt d.end_time).2 = true <;>
    simp [hs, he, GoMap.set]

theorem get?_start_end (a b : Bool) (x y : GoValue) (k : String) (v : GoValue)
    (h : GoMap.get? ((if a = true then [("start", x)] else []) ++
      (if b = true then [("end", y)] else [])) k = some v) :
    (k = "start" ∧ a = true ∧ v = x) ∨ (k = "end" ∧ b = true ∧ v = y) := by
  by_cases h1 : "start" = k
  · subst h1
    cases a <;> cases b <;> simp [GoMap.get?] at h <;> simp [h]
  · by_cases h2 : "end" = k
    · subst h2
      cases a <;> cases b <;> simp [GoMap.get?] at h <;> simp [h]
    · cases a <;> cases b <;> simp [GoMap.get?, h1, h2] at h

/-! ## C12 -/

/-- C12: for every dashboard configuration the time object built by `getDashboardTime` is
never a mix of the relative and the absolute form: either its `start` is the `time_range`
string, its `end` is `Now` and every value in it is a string, or every key in it is
`start` or `end` holding the integer computed from `start_time`, respectively `end_time`,
so that no value in it is a string. -/
theorem time_forms_exclusive (d : ResourceData) :
    (∃ r, d.time_range = some r ∧
      GoMap.get? (getDashboardTime d) "start" = some (.str r) ∧
      GoMap.get? (getDashboardTime d) "end" = some (.str "Now") ∧
      ∀ k v, GoMap.get? (getDashboardTime d) k = some v → ∃ s, v = .str s) ∨
    (∀ k v, GoMap.get? (getDashboardTime d) k = some v →
      (k = "start" ∧ ∃ s, d.start_time = some s ∧ v = .int (mulInt s 1000)) ∨
      (k = "end" ∧ ∃ e, d.end_time = some e ∧ v = .int (mulInt e 1000))) := by
  by_cases hty : (getOkString d.time_span_type).2 = true
  · by_cases hrel : (getOkString d.time_span_type).1 = "relative"
    · rw [getDashboardTime_relative d hty hrel]
      by_cases hr : (getOkString d.time_range).2 = true
      · left
        refine ⟨(getOkString d.time_range).1, (getOkString_ok _ hr).1, ?_, ?_, ?_⟩
        · simp [hr, GoMap.get?]
        · simp [hr, GoMap.get?]
        · intro k v hkv
          simp only [hr, if_true, GoMap.get?] at hkv
          by_cases h1 : "start" = k
          · simp only [h1, if_true, Option.some.injEq] at hkv
            exact ⟨_, hkv.symm⟩
          · by_cases h2 : "end" = k
            · simp only [h1, h2, if_true, if_false, Option.some.injEq] at hkv
              exact ⟨_, hkv.symm⟩
            · simp [h1, h2] at hkv
      · right
        intro k v hkv
        simp [hr, GoMap.get?] at hkv
    · rw [getDashboardTime_absolute d hty hrel]
      right
      intro k v hkv
      rcases get?_start_end _ _ _ _ k v hkv with ⟨hk, hs, hv⟩ | ⟨hk, he, hv⟩
      · exact Or.inl ⟨hk, _, (getOkInt_ok _ hs).1, hv⟩
      · exact Or.inr ⟨hk, _, (getOkInt_ok _ he).1, hv⟩
  · right
    intro k v hkv
    have hf : (getOkString d.time_span_type).2 = false := by simpa using hty
    rw [getDashboardTime_unset d hf] at hkv
    simp [GoMap.get?] at hkv

/-- Witness of C12 at `allTimeFields`, where `time_range`, `start_time` and `end_time` are
all set: the time object is the relative form alone. -/
theorem time_forms_exclusive_witness :
    getDashboardTime allTimeFields = [("start", .str "-1h"), ("end", .str "Now")] ∧
    ((∃ r, allTimeFields.time_range = some r ∧
      GoMap.get? (getDashboardTime allTimeFields) "start" = some (.str r) ∧
      GoMap.get? (getDashboardTime allTimeFields) "end" = some (.str "Now") ∧
      ∀ k v, GoMap.get? (getDashboardTime allTimeFields) k = some v → ∃ s, v = .str s) ∨
    (∀ k v, GoMap.get? (getDashboardTime allTimeFields) k = some v →
      (k = "start" ∧ ∃ s, allTimeFields.start_time = some s ∧ v = .int (mulInt s 1000)) ∨
      (k = "end" ∧ ∃ e, allTimeFields.end_time = some e ∧ v = .int (mulInt e 1000)))) :=
  ⟨rfl, time_forms_exclusive allTimeFields⟩

/-! ## C14 -/

/-- C14: `getDashboardVariables` maps the list of variable entries to a list of the same
length in the same order; the `i`-th object has `property`, `alias`, `value` (the list of
the entry's values), `required` (its `value_required`), `restricted` (its
`restricted_suggestions`) and, whenever the entry carries `values_suggested`,
`preferredSuggestions` (the list of those values); it has no other key. -/
theorem getDashboardVariables_spec (d : ResourceData) :
    (getDashboardVariables d).length = d.variable_.length ∧
    (∀ (i : Nat) (x : VariableEntry), d.variable_[i]? = some x →
      ∃ item, (getDashboardVariables d)[i]? = some item ∧
        GoMap.get? item "property" = some (.str x.property) ∧
        GoMap.get? item "alias" = some (.str x.alias_) ∧
        GoMap.get? item "value" = some (.arr (x.values.map GoValue.str)) ∧
        GoMap.get? item "required" = some (.bool x.value_required) ∧
        GoMap.get? item "restricted" = some (.bool x.restricted_suggestions) ∧
        (∀ sug, x.values_suggested = some sug →
          GoMap.get? item "preferredSuggestions" = some (.arr (sug.map GoValue.str))) ∧
        (x.values_suggested = none → GoMap.get? item "preferredSuggestions" = none) ∧
        (∀ k, k ∈ GoMap.keys item →
          k ∈ ["property", "alias", "value", "required", "restricted",
            "preferredSuggestions"])) := by
  refine ⟨?_, ?_⟩
  · simp [getDashboardVariables_eq_map]
  · intro i x hx
    refine ⟨getDashboardVariables.item x, ?_, ?_⟩
    · simp [getDashboardVariables_eq_map, hx]
    · cases hsug : x.values_suggested with
      | none =>
        simp only [getDashboardVariables.item, hsug, GoMap.get?_set, GoMap.mem_keys_set,
          stringList]
        simp [GoMap.get?, GoMap.keys]
      | some sug =>
        simp only [getDashboardVariables.item, hsug, GoMap.get?_set, GoMap.mem_keys_set,
          stringList]
        simp [GoMap.get?, GoMap.keys]

/-- Witness of C14 at `fullDashboard`, whose one variable carries `values_suggested`. -/
theorem getDashboardVariables_spec_witness :
    ∃ item, (getDashboardVariables fullDashboard)[0]? = some item ∧
      GoMap.get? item "property" = some (.str "region") ∧
      GoMap.get? item "alias" = some (.str "Region") ∧
      GoMap.get? item "value" = some (.arr [.str "eu", .str "us"]) ∧
      GoMap.get? item "required" = some (.bool true) ∧
      GoMap.get? item "restricted" = some (.bool false) ∧
      GoMap.get? item "preferredSuggestions" = some (.arr [.str "eu"]) := by
  obtain ⟨item, h0, h1, h2, h3, h4, h5, h6, _, _⟩ :=
    (getDashboardVariables_spec fullDashboard).2 0
      ⟨"region", "Region", ["eu", "us"], true, some ["eu"], false⟩ rfl
  exact ⟨item, h0, h1, h2, h3, h4, h5, h6 ["eu"] rfl⟩

/-! ## C15 -/

/-- C15, as stated, fails: `scenarioD1` has no filter, `getDashboardFilters` returns the
empty list for it, and the payload carries nothing under `filters.sources` (it has no
`filters` key), not the empty list. -/
theorem empty_filters_counterexample :
    scenarioD1.filter = [] ∧ getDashboardFilters scenarioD1 = [] ∧
    filtersSources (getPayloadDashboard.payload id scenarioD1) = none ∧
    GoMap.get? (getPayloadDashboard.payload id scenarioD1) "filters" = none :=
  ⟨rfl, rfl, rfl, rfl⟩

theorem getDashboardFilters_item_keys (x : FilterEntry) (k : String) :
    k ∈ GoMap.keys (getDashboardFilters.item x) ↔ k ∈ ["property", "NOT", "value"] := by
  simp only [getDashboardFilters.item, GoMap.mem_keys_set]
  simp only [GoMap.keys, List.map_nil, List.mem_cons, List.mem_singleton, List.not_mem_nil,
    or_false]
  tauto

theorem filtersSources_eq (nonAscii : Char → Char) (d : ResourceData) :
    filtersSources (getPayloadDashboard.payload nonAscii d) =
      if (getDashboardFilters d).length > 0 then some (mapList (getDashboardFilters d))
      else none := by
  unfold filtersSources
  rw [payload_get?_filters]
  by_cases h : (getDashboardFilters d).length > 0
  · have hall : (getPayloadDashboard.all_filters d).length > 0 :=
      (all_filters_length_pos_iff d).2 (Or.inl h)
    simp only [hall, h, if_true, GoValue.field?]
    rw [all_filters_get?_sources]
    simp [h]
  · by_cases hall : (getPayloadDashboard.all_filters d).length > 0
    · simp only [hall, h, if_true, if_false, GoValue.field?]
      rw [all_filters_get?_sources]
      simp [h]
    · simp only [hall, h, if_false]

/-- C15, amended: `getDashboardFilters` maps the list of filter entries to a list of the
same length in the same order; the `i`-th object has exactly the three keys `property`,
`NOT` and `value`, holding the entry's property, its negated flag and the list of its
values; whenever this list is non-empty it is what the payload carries under
`filters.sources`. -/
theorem getDashboardFilters_spec (nonAscii : Char → Char) (d : ResourceData) :
    (getDashboardFilters d).length = d.filter.length ∧
    (∀ (i : Nat) (x : FilterEntry), d.filter[i]? = some x →
      ∃ item, (getDashboardFilters d)[i]? = some item ∧
        (∀ k, k ∈ GoMap.keys item ↔ k ∈ ["property", "NOT", "value"]) ∧
        item.length = 3 ∧
        GoMap.get? item "property" = some (.str x.property) ∧
        GoMap.get? item "NOT" = some (.bool x.negated) ∧
        GoMap.get? item "value" = some (.arr (x.values.map GoValue.str))) ∧
    (d.filter ≠ [] →
      filtersSources (getPayloadDashboard.payload nonAscii d) =
        some (.arr ((getDashboardFilters d).map GoValue.obj))) := by
  refine ⟨?_, ?_, ?_⟩
  · simp [getDashboardFilters_eq_map]
  · intro i x hx
    refine ⟨getDashboardFilters.item x, ?_, getDashboardFilters_item_keys x, ?_⟩
    · simp [getDashboardFilters_eq_map, hx]
    · simp [getDashboardFilters.item, GoMap.set, GoMap.get?, stringList]
  · intro hne
    rw [filtersSources_eq]
    have hpos : (getDashboardFilters d).length > 0 := by
      rw [getDashboardFilters_eq_map, List.length_map]
      exact List.length_pos.2 hne
    simp [hpos, mapList]

/-- Witness of the amended C15 at `fullDashboard`, which has one negated filter. -/
theorem getDashboardFilters_spec_witness :
    filtersSources (getPayloadDashboard.payload id fullDashboard) =
      some (.arr [.obj [("property", .str "env"), ("NOT", .bool true),
        ("value", .arr [.str "test"])]]) :=
  (getDashboardFilters_spec id fullDashboard).2.2 (by simp [fullDashboard])

/-! ## C16 -/

/-- C16: for every dashboard configuration in which `time_span_type` is unset or the empty
string, `getDashboardTime` returns an empty result whatever `time_range`, `start_time` and
`end_time` are, and the payload has no `filters.time` entry. -/
theorem no_span_type_no_time (nonAscii : Char → Char) (d : ResourceData)
    (h : d.time_span_type = none ∨ d.time_span_type = some "") :
    getDashboardTime d = [] ∧
    filtersTime (getPayloadDashboard.payload nonAscii d) = none := by
  have hok : (getOkString d.time_span_type).2 = false := by
    rcases h with h | h <;> simp [getOkString, h]
  have ht : getDashboardTime d = [] := getDashboardTime_unset d hok
  refine ⟨ht, ?_⟩
  rw [filtersTime_eq, ht]
  simp

/-- Witness of C16 at `emptySpanType`, where `time_span_type` is empty and `time_range`,
`start_time` and `end_time` are all set. -/
theorem no_span_type_no_time_witness :
    emptySpanType.time_range = some "-1h" ∧
    emptySpanType.start_time = some 1500000000 ∧
    emptySpanType.end_time = some 1500003600 ∧
    getDashboardTime emptySpanType = [] ∧
    filtersTime (getPayloadDashboard.payload id emptySpanType) = none :=
  ⟨rfl, rfl, rfl, no_span_type_no_time id emptySpanType (Or.inr rfl)⟩

/-! ## C17 -/

/-- C17, as stated, fails: `hugeStart` has `time_span_type` `absolute` and the non-zero
`start_time` 9223372036854776; the time object has a `start` key, but its value is
-9223372036854775616, the product wrapped around in 64-bit `int` arithmetic, not
`start_time * 1000`. -/
theorem absolute_start_wraps_counterexample :
    hugeStart.time_span_type = some "absolute" ∧ "absolute" ≠ "" ∧ "absolute" ≠ "relative" ∧
    hugeStart.start_time = some 9223372036854776 ∧ (9223372036854776 : Int) ≠ 0 ∧
    GoMap.get? (getDashboardTime hugeStart) "start" = some (.int (-9223372036854775616)) ∧
    (-9223372036854775616 : Int) ≠ 9223372036854776 * 1000 :=
  ⟨rfl, by decide, by decide, rfl, by decide, rfl, by decide⟩

/-- C17, amended: for every dashboard configuration whose `time_span_type` is a non-empty
string other than `relative`, the time object built by `getDashboardTime` has a `start` key
if and only if `start_time` is non-zero and an `end` key if and only if `end_time` is
non-zero, independently of each other and of `time_range`, and it has no other key; a
bound of 0 is omitted; the value of a key that is present is the bound times 1000 whenever
that product lies in the range of a 64-bit `int`. -/
theorem absolute_time_keys (d : ResourceData) (ty : String)
    (hspan : d.time_span_type = some ty) (hty : ty ≠ "") (hrel : ty ≠ "relative") :
    ("start" ∈ GoMap.keys (getDashboardTime d) ↔ d.start_time.getD 0 ≠ 0) ∧
    ("end" ∈ GoMap.keys (getDashboardTime d) ↔ d.end_time.getD 0 ≠ 0) ∧
    (∀ k, k ∈ GoMap.keys (getDashboardTime d) → k = "start" ∨ k = "end") ∧
    (∀ s, d.start_time = some s → s ≠ 0 → -2 ^ 63 ≤ s * 1000 → s * 1000 < 2 ^ 63 →
      GoMap.get? (getDashboardTime d) "start" = some (.int (s * 1000))) ∧
    (∀ e, d.end_time = some e → e ≠ 0 → -2 ^ 63 ≤ e * 1000 → e * 1000 < 2 ^ 63 →
      GoMap.get? (getDashboardTime d) "end" = some (.int (e * 1000))) := by
  have hok : (getOkString d.time_span_type).2 = true := by simp [getOkString, hspan, hty]
  have hne : (getOkString d.time_span_type).1 ≠ "relative" := by
    simp [getOkString, hspan, hrel]
  rw [getDashboardTime_absolute d hok hne]
  refine ⟨?_, ?_, ?_, ?_, ?_⟩
  · rw [← getOkInt_snd]
    by_cases hs : (getOkInt d.start_time).2 = true <;>
      by_cases he : (getOkInt d.end_time).2 = true <;>
      simp [hs, he, GoMap.keys]
  · rw [← getOkInt_snd]
    by_cases hs : (getOkInt d.start_time).2 = true <;>
      by_cases he : (getOkInt d.end_time).2 = true <;>
      simp [hs, he, GoMap.keys]
  · intro k
    by_cases hs : (getOkInt d.start_time).2 = true <;>
      by_cases he : (getOkInt d.end_time).2 = true <;>
      simp [hs, he, GoMap.keys] <;> tauto
  · intro s hs hs0 hlo hhi
    have hsok : (getOkInt d.start_time).2 = true := by simp [getOkInt, hs, hs0]
    have hv : (getOkInt d.start_time).1 = s := by simp [getOkInt, hs]
    simp [hsok, hv, GoMap.get?, mulInt, wrapInt64_of_fits _ hlo hhi]
  · intro e he he0 hlo hhi
    have heok : (getOkInt d.end_time).2 = true := by simp [getOkInt, he, he0]
    have hv : (getOkInt d.end_time).1 = e := by simp [getOkInt, he]
    by_cases hs : (getOkInt d.start_time).2 = true <;>
      simp [hs, heok, hv, GoMap.get?, mulInt, wrapInt64_of_fits _ hlo hhi]

/-- Witness of the amended C17 at `epochStart`, whose `start_time` is 0 and whose
`end_time` is 1500003600: no `start` key, and `end` is 1500003600000. -/
theorem absolute_time_keys_witness :
    "start" ∉ GoMap.keys (getDashboardTime epochStart) ∧
    "end" ∈ GoMap.keys (getDashboardTime epochStart) ∧
    GoMap.get? (getDashboardTime epochStart) "end" = some (.int (1500003600 * 1000)) :=
  ⟨fun h => ((absolute_time_keys epochStart "absolute" rfl (by decide) (by decide)).1.1 h)
      rfl,
   (absolute_time_keys epochStart "absolute" rfl (by decide) (by decide)).2.1.2
      (by decide),
   (absolute_time_keys epochStart "absolute" rfl (by decide) (by decide)).2.2.2.2
      1500003600 rfl (by decide) (by decide) (by decide)⟩

/-! ## C18 -/

theorem GoMap.mem_keys_ite_set (c : Prop) [Decidable c] (m : GoMap) (k k₀ : String)
    (v : GoValue) :
    k₀ ∈ GoMap.keys (if c then GoMap.set m k v else m) ↔ (k₀ = k ∧ c) ∨ k₀ ∈ GoMap.keys m := by
  by_cases h : c
  · simp [h, GoMap.mem_keys_set]
  · simp [h]

theorem payload_mem_keys (nonAscii : Char → Char) (d : ResourceData) (k : String) :
    k ∈ GoMap.keys (getPayloadDashboard.payload nonAscii d) ↔
      ((k = "chartDensity" ∧ (getOkString d.charts_resolution).2 = true) ∨
        (k = "charts" ∧ (getDashboardCharts d).length > 0) ∨
        (k = "filters" ∧ (getPayloadDashboard.all_filters d).length > 0) ∨
        k = "groupId" ∨ k = "description" ∨ k = "name") := by
  simp only [getPayloadDashboard.payload, GoMap.mem_keys_ite_set, GoMap.mem_keys_set]
  simp only [GoMap.keys, List.map_nil, List.not_mem_nil, or_false]

theorem mem_allKeysElements (xs : List GoValue) (k : String) :
    k ∈ allKeysElements xs ↔ ∃ x ∈ xs, k ∈ allKeys x := by
  induction xs with
  | nil => simp [allKeysElements]
  | cons x rest ih => simp [allKeysElements, ih]

theorem mem_allKeysBindings (m : List (String × GoValue)) (k : String) :
    k ∈ allKeysBindings m ↔ ∃ p ∈ m, k = p.1 ∨ k ∈ allKeys p.2 := by
  induction m with
  | nil => simp [allKeysBindings]
  | cons p rest ih =>
    obtain ⟨k', x⟩ := p
    simp only [allKeysBindings, List.mem_cons, List.mem_append, ih]
    constructor
    · rintro (h | h | ⟨q, hq, h⟩)
      · exact ⟨(k', x), Or.inl rfl, Or.inl h⟩
      · exact ⟨(k', x), Or.inl rfl, Or.inr h⟩
      · exact ⟨q, Or.inr hq, h⟩
    · rintro ⟨q, hq | hq, h⟩
      · subst hq
        rcases h with h | h
        · exact Or.inl h
        · exact Or.inr (Or.inl h)
      · exact Or.inr (Or.inr ⟨q, hq, h⟩)

theorem GoMap.mem_set_cases (m : GoMap) (k : String) (v : GoValue) (p : String × GoValue)
    (hp : p ∈ GoMap.set m k v) : p = (k, v) ∨ p ∈ m := by
  induction m with
  | nil => simpa [GoMap.set] using hp
  | cons q rest ih =>
    obtain ⟨k', v'⟩ := q
    by_cases h : k' = k
    · simp only [GoMap.set, h, if_true, List.mem_cons] at hp
      rcases hp with hp | hp
      · exact Or.inl hp
      · exact Or.inr (List.mem_cons_of_mem _ hp)
    · simp only [GoMap.set, h, if_false, List.mem_cons] at hp
      rcases hp with hp | hp
      · exact Or.inr (hp ▸ List.mem_cons_self _ _)
      · rcases ih hp with h' | h'
        · exact Or.inl h'
        · exact Or.inr (List.mem_cons_of_mem _ h')

theorem keysWithin_nil (P : String → Prop) : ∀ k ∈ allKeys (.obj []), P k := by
  intro k hk
  simp [allKeys, allKeysBindings] at hk

theorem keysWithin_set (P : String → Prop) (m : GoMap) (k₀ : String) (v : GoValue)
    (hm : ∀ k ∈ allKeys (.obj m), P k) (hk₀ : P k₀) (hv : ∀ k ∈ allKeys v, P k) :
    ∀ k ∈ allKeys (.obj (GoMap.set m k₀ v)), P k := by
  intro k hk
  simp only [allKeys, mem_allKeysBindings] at hk hm
  obtain ⟨p, hp, hkp⟩ := hk
  rcases GoMap.mem_set_cases m k₀ v p hp with e | e
  · subst e
    rcases hkp with h | h
    · rw [h]
      exact hk₀
    · exact hv k h
  · exact hm k ⟨p, e, hkp⟩

theorem keysWithin_ite (P : String → Prop) (c : Prop) [Decidable c] (a b : GoMap)
    (ha : ∀ k ∈ allKeys (.obj a), P k) (hb : ∀ k ∈ allKeys (.obj b), P k) :
    ∀ k ∈ allKeys (.obj (if c then a else b)), P k := by
  by_cases h : c
  · simpa [h] using ha
  · simpa [h] using hb

theorem keysWithin_str (P : String → Prop) (s : String) : ∀ k ∈ allKeys (.str s), P k := by
  intro k hk
  simp [allKeys] at hk

theorem keysWithin_int (P : String → Prop) (n : Int) : ∀ k ∈ allKeys (.int n), P k := by
  intro k hk
  simp [allKeys] at hk

theorem keysWithin_bool (P : String → Prop) (b : Bool) : ∀ k ∈ allKeys (.bool b), P k := by
  intro k hk
  simp [allKeys] at hk

theorem keysWithin_stringList (P : String → Prop) (xs : List String) :
    ∀ k ∈ allKeys (stringList xs), P k := by
  intro k hk
  simp only [stringList, allKeys, mem_allKeysElements] at hk
  obtain ⟨x, hx, hkx⟩ := hk
  obtain ⟨s, _, rfl⟩ := List.mem_map.1 hx
  simp [allKeys] at hkx

theorem keysWithin_mapList (P : String → Prop) (l : List GoMap)
    (h : ∀ m ∈ l, ∀ k ∈ allKeys (.obj m), P k) : ∀ k ∈ allKeys (mapList l), P k := by
  intro k hk
  simp only [mapList, allKeys, mem_allKeysElements] at hk
  obtain ⟨x, hx, hkx⟩ := hk
  obtain ⟨m, hm, rfl⟩ := List.mem_map.1 hx
  exact h m hm k hkx

theorem keysWithin_chartItem (c : ChartEntry) :
    ∀ k ∈ allKeys (.obj (getDashboardCharts.item c)), k ∈ payloadKeyNames := by
  unfold getDashboardCharts.item
  exact keysWithin_set _ _ _ _ (keysWithin_set _ _ _ _ (keysWithin_set _ _ _ _
    (keysWithin_set _ _ _ _ (keysWithin_set _ _ _ _ (keysWithin_nil _) (by decide)
    (keysWithin_str _ _)) (by decide) (keysWithin_int _ _)) (by decide)
    (keysWithin_int _ _)) (by decide) (keysWithin_int _ _)) (by decide) (keysWithin_int _ _)

theorem keysWithin_variableItem (x : VariableEntry) :
    ∀ k ∈ allKeys (.obj (getDashboardVariables.item x)), k ∈ payloadKeyNames := by
  unfold getDashboardVariables.item
  have h4 : ∀ k ∈ allKeys (.obj (GoMap.set (GoMap.set (GoMap.set (GoMap.set [] "property"
      (.str x.property)) "alias" (.str x.alias_)) "value" (stringList x.values)) "required"
      (.bool x.value_required))), k ∈ payloadKeyNames :=
    keysWithin_set _ _ _ _ (keysWithin_set _ _ _ _ (keysWithin_set _ _ _ _
      (keysWithin_set _ _ _ _ (keysWithin_nil _) (by decide) (keysWithin_str _ _))
      (by decide) (keysWithin_str _ _)) (by decide) (keysWithin_stringList _ _))
      (by decide) (keysWithin_bool _ _)
  cases x.values_suggested with
  | none => exact keysWithin_set _ _ _ _ h4 (by decide) (keysWithin_bool _ _)
  | some val =>
    exact keysWithin_set _ _ _ _ (keysWithin_set _ _ _ _ h4 (by decide)
      (keysWithin_stringList _ _)) (by decide) (keysWithin_bool _ _)

theorem keysWithin_filterItem (x : FilterEntry) :
    ∀ k ∈ allKeys (.obj (getDashboardFilters.item x)), k ∈ payloadKeyNames := by
  unfold getDashboardFilters.item
  exact keysWithin_set _ _ _ _ (keysWithin_set _ _ _ _ (keysWithin_set _ _ _ _
    (keysWithin_nil _) (by decide) (keysWithin_str _ _)) (by decide) (keysWithin_bool _ _))
    (by decide) (keysWithin_stringList _ _)

theorem keysWithin_time (d : ResourceData) :
    ∀ k ∈ allKeys (.obj (getDashboardTime d)), k = "start" ∨ k = "end" := by
  by_cases hty : (getOkString d.time_span_type).2 = true
  · by_cases hrel : (getOkString d.time_span_type).1 = "relative"
    · rw [getDashboardTime_relative d hty hrel]
      by_cases hr : (getOkString d.time_range).2 = true <;>
        simp [hr, allKeys, allKeysBindings]
    · rw [getDashboardTime_absolute d hty hrel]
      by_cases hs : (getOkInt d.start_time).2 = true <;>
        by_cases he : (getOkInt d.end_time).2 = true <;>
        simp [hs, he, allKeys, allKeysBindings]
  · have hf : (getOkString d.time_span_type).2 = false := by simpa using hty
    rw [getDashboardTime_unset d hf]
    simp [allKeys, allKeysBindings]

theorem keysWithin_all_filters (d : ResourceData) :
    ∀ k ∈ allKeys (.obj (getPayloadDashboard.all_filters d)), k ∈ payloadKeyNames := by
  unfold getPayloadDashboard.all_filters
  have hf : ∀ k ∈ allKeys (mapList (getDashboardFilters d)), k ∈ payloadKeyNames := by
    apply keysWithin_mapList
    intro m hm
    rw [getDashboardFilters_eq_map] at hm
    obtain ⟨x, _, rfl⟩ := List.mem_map.1 hm
    exact keysWithin_filterItem x
  have hv : ∀ k ∈ allKeys (mapList (getDashboardVariables d)), k ∈ payloadKeyNames := by
    apply keysWithin_mapList
    intro m hm
    rw [getDashboardVariables_eq_map] at hm
    obtain ⟨x, _, rfl⟩ := List.mem_map.1 hm
    exact keysWithin_variableItem x
  have ht : ∀ k ∈ allKeys (.obj (getDashboardTime d)), k ∈ payloadKeyNames := by
    intro k hk
    rcases keysWithin_time d k hk with h | h <;> subst h <;> decide
  have h1 := keysWithin_ite (· ∈ payloadKeyNames) ((getDashboardFilters d).length > 0) _ _
    (keysWithin_set _ [] "sources" _ (keysWithin_nil _) (by decide) hf) (keysWithin_nil _)
  have h2 := keysWithin_ite (· ∈ payloadKeyNames) ((getDashboardVariables d).length > 0) _ _
    (keysWithin_set _ _ "variables" _ h1 (by decide) hv) h1
  exact keysWithin_ite (· ∈ payloadKeyNames) ((getDashboardTime d).length > 0) _ _
    (keysWithin_set _ _ "time" _ h2 (by decide) ht) h2

theorem keysWithin_payload (nonAscii : Char → Char) (d : ResourceData) :
    ∀ k ∈ allKeys (.obj (getPayloadDashboard.payload nonAscii d)), k ∈ payloadKeyNames := by
  unfold getPayloadDashboard.payload
  have hc : ∀ k ∈ allKeys (mapList (getDashboardCharts d)), k ∈ payloadKeyNames := by
    apply keysWithin_mapList
    intro m hm
    rw [getDashboardCharts_eq_map] at hm
    obtain ⟨x, _, rfl⟩ := List.mem_map.1 hm
    exact keysWithin_chartItem x
  have h0 : ∀ k ∈ allKeys (.obj (GoMap.set (GoMap.set (GoMap.set [] "name" (.str d.name))
      "description" (.str (getString d.description))) "groupId" (.str d.dashboard_group))),
      k ∈ payloadKeyNames :=
    keysWithin_set _ _ _ _ (keysWithin_set _ _ _ _ (keysWithin_set _ _ _ _ (keysWithin_nil _)
      (by decide) (keysWithin_str _ _)) (by decide) (keysWithin_str _ _)) (by decide)
      (keysWithin_str _ _)
  have h1 := keysWithin_ite (· ∈ payloadKeyNames)
    ((getPayloadDashboard.all_filters d).length > 0) _ _
    (keysWithin_set _ _ "filters" _ h0 (by decide) (keysWithin_all_filters d)) h0
  have h2 := keysWithin_ite (· ∈ payloadKeyNames) ((getDashboardCharts d).length > 0) _ _
    (keysWithin_set _ _ "charts" _ h1 (by decide) hc) h1
  exact keysWithin_ite (· ∈ payloadKeyNames) ((getOkString d.charts_resolution).2 = true) _ _
    (keysWithin_set _ _ "chartDensity" _ h2 (by decide) (keysWithin_str _ _)) h2

/-- C18: for every dashboard configuration, every top-level key of the payload is one of
`name`, `description`, `groupId`, `filters`, `charts`, `chartDensity`; `name`,
`description` and `groupId` are always among the keys; `synced`, `last_updated` and
`time_span_type` never appear in the payload: they are not among its top-level keys, and
they are not a key at any depth of it, every key at any depth being one of the names the
builders write. -/
theorem payload_keys_spec (nonAscii : Char → Char) (d : ResourceData) :
    (∀ k, k ∈ GoMap.keys (getPayloadDashboard.payload nonAscii d) →
      k ∈ ["name", "description", "groupId", "filters", "charts", "chartDensity"]) ∧
    "name" ∈ GoMap.keys (getPayloadDashboard.payload nonAscii d) ∧
    "description" ∈ GoMap.keys (getPayloadDashboard.payload nonAscii d) ∧
    "groupId" ∈ GoMap.keys (getPayloadDashboard.payload nonAscii d) ∧
    "synced" ∉ GoMap.keys (getPayloadDashboard.payload nonAscii d) ∧
    "last_updated" ∉ GoMap.keys (getPayloadDashboard.payload nonAscii d) ∧
    "time_span_type" ∉ GoMap.keys (getPayloadDashboard.payload nonAscii d) ∧
    (∀ k, k ∈ allKeys (.obj (getPayloadDashboard.payload nonAscii d)) →
      k ∈ ["name", "description", "groupId", "filters", "charts", "chartDensity",
        "sources", "variables", "time", "start", "end",
        "chartId", "row", "column", "height", "width",
        "property", "alias", "value", "required", "preferredSuggestions", "restricted",
        "NOT"]) ∧
    "synced" ∉ allKeys (.obj (getPayloadDashboard.payload nonAscii d)) ∧
    "last_updated" ∉ allKeys (.obj (getPayloadDashboard.payload nonAscii d)) ∧
    "time_span_type" ∉ allKeys (.obj (getPayloadDashboard.payload nonAscii d)) := by
  have hdeep := keysWithin_payload nonAscii d
  refine ⟨?_, ?_, ?_, ?_, ?_, ?_, ?_, hdeep, ?_, ?_, ?_⟩
  · intro k hk
    rw [payload_mem_keys] at hk
    rcases hk with ⟨h, _⟩ | ⟨h, _⟩ | ⟨h, _⟩ | h | h | h <;> simp [h]
  · rw [payload_mem_keys]; simp
  · rw [payload_mem_keys]; simp
  · rw [payload_mem_keys]; simp
  · rw [payload_mem_keys]; simp
  · rw [payload_mem_keys]; simp
  · rw [payload_mem_keys]; simp
  · intro h
    exact absurd (hdeep _ h) (by decide)
  · intro h
    exact absurd (hdeep _ h) (by decide)
  · intro h
    exact absurd (hdeep _ h) (by decide)

/-- Witness of C18 at `fullDashboard`, whose payload has all six top-level keys, a
`filters` object with its three parts, a chart, a variable and a filter. -/
theorem payload_keys_spec_witness :
    GoMap.keys (getPayloadDashboard.payload id fullDashboard) =
      ["name", "description", "groupId", "filters", "charts", "chartDensity"] ∧
    allKeys (.obj (getPayloadDashboard.payload id fullDashboard)) =
      ["name", "description", "groupId", "filters", "sources", "property", "NOT", "value",
        "variables", "property", "alias", "value", "required", "preferredSuggestions",
        "restricted", "time", "start", "end", "charts", "chartId", "row", "column",
        "height", "width", "chartDensity"] ∧
    "synced" ∉ GoMap.keys (getPayloadDashboard.payload id fullDashboard) ∧
    "synced" ∉ allKeys (.obj (getPayloadDashboard.payload id fullDashboard)) ∧
    "last_updated" ∉ allKeys (.obj (getPayloadDashboard.payload id fullDashboard)) ∧
    "time_span_type" ∉ allKeys (.obj (getPayloadDashboard.payload id fullDashboard)) :=
  ⟨rfl, rfl, (payload_keys_spec id fullDashboard).2.2.2.2.1,
   (payload_keys_spec id fullDashboard).2.2.2.2.2.2.2.2.1,
   (payload_keys_spec id fullDashboard).2.2.2.2.2.2.2.2.2.1,
   (payload_keys_spec id fullDashboard).2.2.2.2.2.2.2.2.2.2⟩

/-! ## C13: decoding what json.Marshal wrote -/

theorem skipSpace_cons (c : Char) (rest : List Char) (h : isSpace c = false) :
    skipSpace (c :: rest) = c :: rest := by
  simp [skipSpace, h]

theorem Delimited.skipSpace {rest : List Char} (h : Delimited rest) :
    skipSpace rest = rest := by
  rcases h with h | ⟨c, t, h, hc⟩
  · subst h
    rfl
  · subst h
    rcases hc with hc | hc | hc <;> subst hc <;> rfl

theorem Delimited.readDigits {rest : List Char} (h : Delimited rest) (acc : Nat) :
    readDigits acc rest = (acc, rest) := by
  rcases h with h | ⟨c, t, h, hc⟩
  · subst h
    rfl
  · subst h
    rcases hc with hc | hc | hc <;> subst hc <;> rfl

theorem Delimited.startsFraction {rest : List Char} (h : Delimited rest) :
    startsFraction rest = false := by
  rcases h with h | ⟨c, t, h, hc⟩
  · subst h
    rfl
  · subst h
    rcases hc with hc | hc | hc <;> subst hc <;> rfl

theorem digitValue_digitChar (d : Nat) (h : d < 10) :
    digitValue (Nat.digitChar d) = some d := by
  interval_cases d <;> rfl

theorem toDigitsCore_append (fuel : Nat) :
    ∀ (n : Nat) (acc : List Char),
      Nat.toDigitsCore 10 fuel n acc = Nat.toDigitsCore 10 fuel n [] ++ acc := by
  induction fuel with
  | zero => intro n acc; simp [Nat.toDigitsCore]
  | succ f ih =>
    intro n acc
    simp only [Nat.toDigitsCore]
    by_cases h : n / 10 = 0
    · simp [h]
    · simp only [h, if_false]
      rw [ih (n / 10) (Nat.digitChar (n % 10) :: acc), ih (n / 10) [Nat.digitChar (n % 10)]]
      simp

theorem digitsValue_toDigitsCore (fuel : Nat) :
    ∀ n, n < fuel → digitsValue 0 (Nat.toDigitsCore 10 fuel n []) = n := by
  induction fuel with
  | zero => intro n h; omega
  | succ f ih =>
    intro n hn
    simp only [Nat.toDigitsCore]
    by_cases h : n / 10 = 0
    · have hlt : n < 10 := by omega
      have hmod : n % 10 = n := Nat.mod_eq_of_lt hlt
      simp [h, digitsValue, hmod, digitValue_digitChar n hlt]
    · simp only [h, if_false]
      rw [toDigitsCore_append f (n / 10) [Nat.digitChar (n % 10)]]
      have hdiv : n / 10 < f := by omega
      have := ih (n / 10) hdiv
      simp only [digitsValue] at this
      simp only [digitsValue, List.foldl_append, this, List.foldl_cons, List.foldl_nil,
        digitValue_digitChar (n % 10) (Nat.mod_lt n (by decide)), Option.getD_some]
      omega

theorem digits_toDigitsCore (fuel : Nat) :
    ∀ n, ∀ c ∈ Nat.toDigitsCore 10 fuel n [], (digitValue c).isSome = true := by
  induction fuel with
  | zero => intro n c hc; simp [Nat.toDigitsCore] at hc
  | succ f ih =>
    intro n c hc
    simp only [Nat.toDigitsCore] at hc
    by_cases h : n / 10 = 0
    · simp only [h, if_true, List.mem_singleton] at hc
      subst hc
      simp [digitValue_digitChar (n % 10) (Nat.mod_lt n (by decide))]
    · simp only [h, if_false] at hc
      rw [toDigitsCore_append f (n / 10) [Nat.digitChar (n % 10)]] at hc
      rcases List.mem_append.1 hc with hc | hc
      · exact ih _ c hc
      · simp only [List.mem_singleton] at hc
        subst hc
        simp [digitValue_digitChar (n % 10) (Nat.mod_lt n (by decide))]

theorem head_toDigitsCore (fuel : Nat) :
    ∀ n, n ≠ 0 → n < fuel →
      ∃ c ds v, Nat.toDigitsCore 10 fuel n [] = c :: ds ∧ digitValue c = some v ∧ v ≠ 0 := by
  induction fuel with
  | zero => intro n _ h; omega
  | succ f ih =>
    intro n hn0 hn
    simp only [Nat.toDigitsCore]
    by_cases h : n / 10 = 0
    · have hlt : n < 10 := by omega
      have hmod : n % 10 = n := Nat.mod_eq_of_lt hlt
      exact ⟨Nat.digitChar n, [], n, by simp [h, hmod], digitValue_digitChar n hlt, hn0⟩
    · simp only [h, if_false]
      rw [toDigitsCore_append f (n / 10) [Nat.digitChar (n % 10)]]
      obtain ⟨c, ds, v, hcd, hv, hv0⟩ := ih (n / 10) h (by omega)
      exact ⟨c, ds ++ [Nat.digitChar (n % 10)], v, by simp [hcd], hv, hv0⟩

theorem readDigits_append (ds : List Char) :
    ∀ (acc : Nat) (rest : List Char), (∀ c ∈ ds, (digitValue c).isSome = true) →
      Delimited rest → readDigits acc (ds ++ rest) = (digitsValue acc ds, rest) := by
  induction ds with
  | nil =>
    intro acc rest _ hrest
    simpa [digitsValue] using hrest.readDigits acc
  | cons c ds ih =>
    intro acc rest hds hrest
    obtain ⟨v, hv⟩ := Option.isSome_iff_exists.1 (hds c (List.mem_cons_self _ _))
    have := ih (acc * 10 + v) rest (fun c' hc' => hds c' (List.mem_cons_of_mem _ hc')) hrest
    simp [readDigits, hv, this, digitsValue]

theorem decodeNat_toDigits (n : Nat) (rest : List Char) (hrest : Delimited rest) :
    decodeNat (Nat.toDigits 10 n ++ rest) = some (n, rest) := by
  by_cases hn : n = 0
  · subst hn
    have h0 : Nat.toDigits 10 0 = ['0'] := rfl
    rw [h0]
    rcases hrest with h | ⟨c, t, h, hc⟩
    · subst h
      rfl
    · subst h
      rcases hc with hc | hc | hc <;> subst hc <;> rfl
  · obtain ⟨c, ds, v, hcd, hv, hv0⟩ := head_toDigitsCore (n + 1) n hn (Nat.lt_succ_self n)
    have hval := digitsValue_toDigitsCore (n + 1) n (Nat.lt_succ_self n)
    have hdig := digits_toDigitsCore (n + 1) n
    unfold Nat.toDigits
    rw [hcd] at hval hdig ⊢
    have hds : ∀ c' ∈ ds, (digitValue c').isSome = true :=
      fun c' hc' => hdig c' (List.mem_cons_of_mem _ hc')
    have hrd := readDigits_append ds v rest hds hrest
    have hv' : digitsValue v ds = n := by
      simpa [digitsValue, hv] using hval
    simp [decodeNat, hv, hv0, hrd, hrest.startsFraction, hv']

theorem toDigits_head_ne_minus (n : Nat) :
    ∃ c ds, Nat.toDigits 10 n = c :: ds ∧ c ≠ '-' := by
  by_cases hn : n = 0
  · subst hn
    exact ⟨'0', [], rfl, by decide⟩
  · obtain ⟨c, ds, v, hcd, hv, _⟩ := head_toDigitsCore (n + 1) n hn (Nat.lt_succ_self n)
    refine ⟨c, ds, hcd, ?_⟩
    intro hc
    subst hc
    simp [digitValue] at hv

theorem decodeNumber_toString (n : Int) (rest : List Char) (hrest : Delimited rest) :
    decodeNumber ((toString n).toList ++ rest) = some (n, rest) := by
  cases n with
  | ofNat m =>
    have hs : (toString (Int.ofNat m)).toList = Nat.toDigits 10 m := rfl
    rw [hs]
    obtain ⟨c, ds, hcd, hc⟩ := toDigits_head_ne_minus m
    have hd := decodeNat_toDigits m rest hrest
    rw [hcd] at hd ⊢
    simp only [List.cons_append] at hd ⊢
    simp [decodeNumber, hc, hd]
  | negSucc m =>
    have hs : (toString (Int.negSucc m)).toList = '-' :: Nat.toDigits 10 (m + 1) := rfl
    rw [hs]
    have hd := decodeNat_toDigits (m + 1) rest hrest
    simp only [List.cons_append]
    simp [decodeNumber, hd, Int.negSucc_eq]

theorem hexValue_hexDigit (n : Nat) (h : n < 16) : hexValue (hexDigit n) = some n := by
  interval_cases n <;> rfl

theorem readHex4_hexDigit (a b c d : Nat) (tail : List Char)
    (ha : a < 16) (hb : b < 16) (hc : c < 16) (hd : d < 16) :
    readHex4 (hexDigit a :: hexDigit b :: hexDigit c :: hexDigit d :: tail) =
      some (((a * 16 + b) * 16 + c) * 16 + d, tail) := by
  simp only [readHex4, hexValue_hexDigit a ha, hexValue_hexDigit b hb, hexValue_hexDigit c hc,
    hexValue_hexDigit d hd]

theorem decodeUnicode_toNat (c : Char) (tail : List Char)
    (h : ¬ (55296 ≤ c.toNat ∧ c.toNat < 57344)) : decodeUnicode c.toNat tail = (c, tail) := by
  simp only [decodeUnicode, h, if_false, Char.ofNat_toNat]

theorem decodeStringBody_escapeRune (c : Char) (fuel : Nat) (tail : List Char) :
    decodeStringBody (fuel + 1) (escapeRune c ++ tail) =
      match decodeStringBody fuel tail with
      | some (s, rest) => some (c :: s, rest)
      | none => none := by
  unfold escapeRune
  by_cases h1 : c = '"'
  · subst h1
    simp [decodeStringBody, decodeEscape]
  by_cases h2 : c = '\\'
  · subst h2
    simp [decodeStringBody, decodeEscape]
  by_cases h3 : c = '\n'
  · subst h3
    simp [decodeStringBody, decodeEscape]
  by_cases h4 : c = '\r'
  · subst h4
    simp [decodeStringBody, decodeEscape]
  by_cases h5 : c = '\t'
  · subst h5
    simp [decodeStringBody, decodeEscape]
  simp only [h1, h2, h3, h4, h5, if_false]
  by_cases h6 : c.toNat < 32 ∨ c = '<' ∨ c = '>' ∨ c = '&'
  · have hlt : c.toNat < 256 := by
      rcases h6 with h | h | h | h
      · omega
      · subst h; decide
      · subst h; decide
      · subst h; decide
    have hrd : readHex4 ('0' :: '0' :: hexDigit (c.toNat / 16) :: hexDigit (c.toNat % 16) ::
        tail) = some (c.toNat, tail) := by
      have h := readHex4_hexDigit 0 0 (c.toNat / 16) (c.toNat % 16) tail (by decide)
        (by decide) (by omega) (Nat.mod_lt _ (by decide))
      have e : ((0 * 16 + 0) * 16 + c.toNat / 16) * 16 + c.toNat % 16 = c.toNat := by omega
      rw [e] at h
      exact h
    have hdu := decodeUnicode_toNat c tail (by omega)
    simp only [h6, if_true, List.cons_append, List.nil_append, decodeStringBody, decodeEscape,
      hrd, hdu]
    simp
  · simp only [h6, if_false]
    by_cases h7 : c.toNat = 8232 ∨ c.toNat = 8233
    · have hrd : readHex4 ('2' :: '0' :: '2' :: hexDigit (c.toNat % 16) :: tail) =
          some (c.toNat, tail) := by
        have h := readHex4_hexDigit 2 0 2 (c.toNat % 16) tail (by decide) (by decide)
          (by decide) (Nat.mod_lt _ (by decide))
        have e : ((2 * 16 + 0) * 16 + 2) * 16 + c.toNat % 16 = c.toNat := by omega
        rw [e] at h
        exact h
      have hdu := decodeUnicode_toNat c tail (by omega)
      simp only [h7, if_true, List.cons_append, List.nil_append, decodeStringBody,
        decodeEscape, hrd, hdu]
      simp
    · have hge : ¬ c.toNat < 32 := fun h => h6 (Or.inl h)
      simp [h7, decodeStringBody, h1, h2, hge]

theorem decodeStringBody_flatMap (s : List Char) :
    ∀ (fuel : Nat) (tail : List Char), s.length < fuel →
      decodeStringBody fuel (s.flatMap escapeRune ++ '"' :: tail) = some (s, tail) := by
  induction s with
  | nil =>
    intro fuel tail hf
    obtain ⟨f, rfl⟩ : ∃ f, fuel = f + 1 := ⟨fuel - 1, by omega⟩
    simp [decodeStringBody]
  | cons c s ih =>
    intro fuel tail hf
    obtain ⟨f, rfl⟩ : ∃ f, fuel = f + 1 := ⟨fuel - 1, by omega⟩
    simp only [List.flatMap_cons, List.append_assoc]
    rw [decodeStringBody_escapeRune, ih f tail (by simpa using hf)]

theorem escapeRune_length_pos (c : Char) : 0 < (escapeRune c).length := by
  unfold escapeRune
  split_ifs <;> simp

theorem length_le_flatMap_escapeRune (s : List Char) :
    s.length ≤ (s.flatMap escapeRune).length := by
  induction s with
  | nil => simp
  | cons c s ih =>
    have := escapeRune_length_pos c
    simp only [List.flatMap_cons, List.length_append, List.length_cons]
    omega

theorem decodeString_encodeString (s : String) (tail : List Char) :
    decodeString (s.toList.flatMap escapeRune ++ '"' :: tail) = some (s, tail) := by
  unfold decodeString
  have hlen := length_le_flatMap_escapeRune s.toList
  rw [decodeStringBody_flatMap s.toList _ tail
    (by simp only [List.length_append, List.length_cons]; omega)]
  rfl

theorem encodeValues_eq_map (xs : List GoValue) :
    encodeValues xs = xs.map encodeValue := by
  induction xs with
  | nil => simp [encodeValues]
  | cons x rest ih => simp [encodeValues, ih]

theorem encodeFields_eq_map (m : List (String × GoValue)) :
    encodeFields m = m.map (fun kv => (kv.1, encodeValue kv.2)) := by
  induction m with
  | nil => simp [encodeFields]
  | cons p rest ih =>
    obtain ⟨k, x⟩ := p
    simp [encodeFields, ih]

theorem canonElements_eq_map (xs : List GoValue) :
    canonElements xs = xs.map canon := by
  induction xs with
  | nil => simp [canonElements]
  | cons x rest ih => simp [canonElements, ih]

theorem canonBindings_eq_map (m : List (String × GoValue)) :
    canonBindings m = m.map (fun kv => (kv.1, canon kv.2)) := by
  induction m with
  | nil => simp [canonBindings]
  | cons p rest ih =>
    obtain ⟨k, x⟩ := p
    simp [canonBindings, ih]

theorem insertSorted_map (f : GoValue → String) (kv : String × GoValue) (l : GoMap) :
    insertSorted (kv.1, f kv.2) (l.map (fun p => (p.1, f p.2))) =
      (insertField kv l).map (fun p => (p.1, f p.2)) := by
  induction l with
  | nil => simp [insertSorted, insertField]
  | cons x rest ih =>
    by_cases h : stringLess kv.1.toList x.1.toList = true
    · simp only [List.map_cons, insertSorted, insertField, h, if_true]
    · simp only [List.map_cons, insertSorted, insertField, h]
      simp [ih]

theorem sortByKey_map (f : GoValue → String) (l : GoMap) :
    sortByKey (l.map (fun p => (p.1, f p.2))) =
      (sortFields l).map (fun p => (p.1, f p.2)) := by
  induction l with
  | nil => simp [sortByKey, sortFields]
  | cons x rest ih =>
    simp only [List.map_cons, sortByKey, sortFields, ih]
    exact insertSorted_map f x (sortFields rest)

theorem insertField_map (f : GoValue → GoValue) (kv : String × GoValue) (l : GoMap) :
    insertField (kv.1, f kv.2) (l.map (fun p => (p.1, f p.2))) =
      (insertField kv l).map (fun p => (p.1, f p.2)) := by
  induction l with
  | nil => simp [insertField]
  | cons x rest ih =>
    by_cases h : stringLess kv.1.toList x.1.toList = true
    · simp only [List.map_cons, insertField, h, if_true]
    · simp only [List.map_cons, insertField, h]
      simp [ih]

theorem sortFields_map (f : GoValue → GoValue) (l : GoMap) :
    sortFields (l.map (fun p => (p.1, f p.2))) =
      (sortFields l).map (fun p => (p.1, f p.2)) := by
  induction l with
  | nil => simp [sortFields]
  | cons x rest ih =>
    simp only [List.map_cons, sortFields, ih]
    exact insertField_map f x (sortFields rest)

theorem insertField_perm (kv : String × GoValue) (l : GoMap) :
    (insertField kv l).Perm (kv :: l) := by
  induction l with
  | nil => simp [insertField]
  | cons x rest ih =>
    by_cases h : stringLess kv.1.toList x.1.toList = true
    · simp only [insertField, h, if_true]
      exact List.Perm.refl _
    · simp only [insertField, h]
      exact (List.Perm.cons x ih).trans (List.Perm.swap kv x rest)

theorem sortFields_perm (l : GoMap) : (sortFields l).Perm l := by
  induction l with
  | nil => simp [sortFields]
  | cons x rest ih =>
    simp only [sortFields]
    exact (insertField_perm x (sortFields rest)).trans (List.Perm.cons x ih)

theorem GoMap.set_of_not_mem (m : GoMap) (k : String) (v : GoValue)
    (h : k ∉ m.map Prod.fst) : GoMap.set m k v = m ++ [(k, v)] := by
  induction m with
  | nil => simp [GoMap.set]
  | cons p rest ih =>
    obtain ⟨k', v'⟩ := p
    simp only [List.map_cons, List.mem_cons, not_or] at h
    have hne : ¬ k' = k := fun e => h.1 e.symm
    simp [GoMap.set, hne, ih h.2]

theorem foldl_set_of_nodup (l : GoMap) :
    ∀ acc : GoMap, ((acc ++ l).map Prod.fst).Nodup →
      l.foldl (fun a kv => GoMap.set a kv.1 kv.2) acc = acc ++ l := by
  induction l with
  | nil => intro acc _; simp
  | cons x rest ih =>
    intro acc h
    have hx : x.1 ∉ acc.map Prod.fst := by
      intro hmem
      simp only [List.map_append, List.map_cons] at h
      have := (List.nodup_append.1 h).2.2
      exact this hmem (List.mem_cons_self _ _)
    simp only [List.foldl_cons, GoMap.set_of_not_mem acc x.1 x.2 hx]
    have h' : (((acc ++ [(x.1, x.2)]) ++ rest).map Prod.fst).Nodup := by
      simpa using h
    rw [ih _ h']
    simp

theorem get?_eq_of_mem_nodup (m : GoMap) (k : String) (v : GoValue)
    (hnd : (m.map Prod.fst).Nodup) (hmem : (k, v) ∈ m) : GoMap.get? m k = some v := by
  induction m with
  | nil => simp at hmem
  | cons p rest ih =>
    obtain ⟨k', v'⟩ := p
    simp only [List.map_cons, List.nodup_cons] at hnd
    rcases List.mem_cons.1 hmem with h | h
    · cases h
      simp [GoMap.get?]
    · have hne : ¬ k' = k := by
        intro e
        subst e
        exact hnd.1 (List.mem_map.2 ⟨(k', v), h, rfl⟩)
      simp [GoMap.get?, hne, ih hnd.2 h]

theorem mem_of_get? (m : GoMap) (k : String) (v : GoValue)
    (h : GoMap.get? m k = some v) : (k, v) ∈ m := by
  induction m with
  | nil => simp [GoMap.get?] at h
  | cons p rest ih =>
    obtain ⟨k', v'⟩ := p
    by_cases hk : k' = k
    · simp [GoMap.get?, hk] at h
      simp [hk, h]
    · simp only [GoMap.get?, hk, if_false] at h
      exact List.mem_cons_of_mem _ (ih h)

theorem stringsJoin_cons_cons (a b : String) (l : List String) (sep : String) :
    stringsJoin (a :: b :: l) sep = a ++ sep ++ stringsJoin (b :: l) sep := by
  simp [stringsJoin]

theorem elementsText_singleton (x : GoValue) :
    elementsText [x] = (encodeValue x).toList := by
  simp [elementsText, stringsJoin]

theorem elementsText_cons_cons (x y : GoValue) (l : List GoValue) :
    elementsText (x :: y :: l) = (encodeValue x).toList ++ ',' :: elementsText (y :: l) := by
  simp only [elementsText, List.map_cons, stringsJoin_cons_cons, String.toList,
    String.data_append]
  simp

theorem membersText_singleton (kv : String × GoValue) :
    membersText [kv] =
      '"' :: (kv.1.toList.flatMap escapeRune ++ '"' :: ':' :: (encodeValue kv.2).toList) := by
  simp [membersText, stringsJoin, encodeString]

theorem membersText_cons_cons (kv kv' : String × GoValue) (l : GoMap) :
    membersText (kv :: kv' :: l) =
      '"' :: (kv.1.toList.flatMap escapeRune ++
        '"' :: ':' :: ((encodeValue kv.2).toList ++ ',' :: membersText (kv' :: l))) := by
  simp only [membersText, List.map_cons, stringsJoin_cons_cons, String.toList,
    String.data_append, encodeString]
  simp

theorem encodeValue_arr_toList (xs : List GoValue) :
    (encodeValue (.arr xs)).toList = '[' :: (elementsText xs ++ [']']) := by
  simp only [encodeValue, encodeValues_eq_map, elementsText, String.toList, String.data_append]
  rfl

theorem encodeValue_obj_toList (m : List (String × GoValue)) :
    (encodeValue (.obj m)).toList = '\x7b' :: (membersText (sortFields m) ++ ['\x7d']) := by
  simp only [encodeValue, encodeFields_eq_map, sortByKey_map, List.map_map, membersText,
    String.toList, String.data_append]
  rfl

theorem encodeValue_str_toList (s : String) :
    (encodeValue (.str s)).toList = '"' :: (s.toList.flatMap escapeRune ++ ['"']) := by
  simp [encodeValue, encodeString]

theorem int_head (n : Int) :
    ∃ c t, (toString n).toList = c :: t ∧ (c = '-' ∨ (digitValue c).isSome = true) := by
  cases n with
  | ofNat m =>
    have hs : (toString (Int.ofNat m)).toList = Nat.toDigits 10 m := rfl
    have hdig := digits_toDigitsCore (m + 1) m
    obtain ⟨c, ds, hcd, _⟩ := toDigits_head_ne_minus m
    refine ⟨c, ds, by rw [hs, hcd], Or.inr ?_⟩
    apply hdig
    have : Nat.toDigitsCore 10 (m + 1) m [] = c :: ds := hcd
    rw [this]
    exact List.mem_cons_self _ _
  | negSucc m =>
    exact ⟨'-', Nat.toDigits 10 (m + 1), rfl, Or.inl rfl⟩

theorem number_head_plain (c : Char) (h : c = '-' ∨ (digitValue c).isSome = true) :
    isSpace c = false ∧ c ≠ 'n' ∧ c ≠ 't' ∧ c ≠ 'f' ∧ c ≠ '"' ∧ c ≠ '[' ∧ c ≠ '\x7b' ∧
      c ≠ ']' := by
  rcases h with h | h
  · subst h
    decide
  · have hr : 48 ≤ c.toNat ∧ c.toNat ≤ 57 := by
      by_contra hcon
      have hcon' : ¬ ('0'.toNat ≤ c.toNat ∧ c.toNat ≤ '9'.toNat) := hcon
      simp only [digitValue, hcon', if_false, Option.isSome_none] at h
      exact Bool.false_ne_true h
    refine ⟨?_, ?_, ?_, ?_, ?_, ?_, ?_, ?_⟩
    · have h1 : c ≠ ' ' := by intro e; subst e; revert hr; decide
      have h2 : c ≠ '\t' := by intro e; subst e; revert hr; decide
      have h3 : c ≠ '\r' := by intro e; subst e; revert hr; decide
      have h4 : c ≠ '\n' := by intro e; subst e; revert hr; decide
      simp [isSpace, h1, h2, h3, h4]
    · intro e; subst e; revert hr; decide
    · intro e; subst e; revert hr; decide
    · intro e; subst e; revert hr; decide
    · intro e; subst e; revert hr; decide
    · intro e; subst e; revert hr; decide
    · intro e; subst e; revert hr; decide
    · intro e; subst e; revert hr; decide

theorem encodeValue_head (v : GoValue) :
    ∃ c t, (encodeValue v).toList = c :: t ∧ isSpace c = false ∧ c ≠ ']' := by
  cases v with
  | null => exact ⟨'n', ['u', 'l', 'l'], rfl, by decide, by decide⟩
  | bool b =>
    cases b
    · exact ⟨'f', ['a', 'l', 's', 'e'], rfl, by decide, by decide⟩
    · exact ⟨'t', ['r', 'u', 'e'], rfl, by decide, by decide⟩
  | int n =>
    obtain ⟨c, t, hct, hc⟩ := int_head n
    have hp := number_head_plain c hc
    exact ⟨c, t, by simpa [encodeValue] using hct, hp.1, hp.2.2.2.2.2.2.2⟩
  | str s => exact ⟨'"', _, encodeValue_str_toList s, by decide, by decide⟩
  | arr xs => exact ⟨'[', _, encodeValue_arr_toList xs, by decide, by decide⟩
  | obj m => exact ⟨'\x7b', _, encodeValue_obj_toList m, by decide, by decide⟩

theorem delimited_comma (t : List Char) : Delimited (',' :: t) :=
  Or.inr ⟨',', t, rfl, Or.inl rfl⟩

theorem delimited_bracket (t : List Char) : Delimited (']' :: t) :=
  Or.inr ⟨']', t, rfl, Or.inr (Or.inl rfl)⟩

theorem delimited_brace (t : List Char) : Delimited ('\x7d' :: t) :=
  Or.inr ⟨'\x7d', t, rfl, Or.inr (Or.inr rfl)⟩

theorem skipSpace_quote (t : List Char) : skipSpace ('"' :: t) = '"' :: t := rfl

theorem skipSpace_colon (t : List Char) : skipSpace (':' :: t) = ':' :: t := rfl

theorem decodeElements_elementsText (xs : List GoValue) :
    (∀ x ∈ xs, RoundTrips x) → xs ≠ [] → ∀ (fuel : Nat) (rest : List Char),
      2 * (elementsText xs ++ ']' :: rest).length + 1 < fuel →
      decodeElements fuel (elementsText xs ++ ']' :: rest) = some (xs.map canon, rest) := by
  induction xs with
  | nil => intro _ h; exact absurd rfl h
  | cons x l ih =>
    intro hrt _ fuel rest hfuel
    obtain ⟨f, rfl⟩ : ∃ f, fuel = f + 1 := ⟨fuel - 1, by omega⟩
    cases l with
    | nil =>
      rw [elementsText_singleton] at hfuel ⊢
      have hv := hrt x (List.mem_cons_self _ _) f (']' :: rest) (delimited_bracket rest)
        (by omega)
      simp only [decodeElements, hv]
      simp [skipSpace, isSpace]
    | cons y l' =>
      rw [elementsText_cons_cons] at hfuel ⊢
      simp only [List.append_assoc, List.cons_append] at hfuel ⊢
      have hv := hrt x (List.mem_cons_self _ _) f
        (',' :: (elementsText (y :: l') ++ ']' :: rest)) (delimited_comma _) (by omega)
      have hrest := ih (fun z hz => hrt z (List.mem_cons_of_mem _ hz)) (List.cons_ne_nil _ _)
        f rest (by simp only [List.length_append, List.length_cons] at hfuel ⊢; omega)
      simp only [decodeElements, hv]
      simp [skipSpace, isSpace, hrest]

theorem decodeMembers_membersText (l : GoMap) :
    (∀ kv ∈ l, RoundTrips kv.2) → l ≠ [] → ∀ (fuel : Nat) (rest : List Char) (acc : GoMap),
      2 * (membersText l ++ '\x7d' :: rest).length + 1 < fuel →
      decodeMembers fuel (membersText l ++ '\x7d' :: rest) acc =
        some ((l.map (fun kv => (kv.1, canon kv.2))).foldl
          (fun a kv => GoMap.set a kv.1 kv.2) acc, rest) := by
  induction l with
  | nil => intro _ h; exact absurd rfl h
  | cons kv l ih =>
    intro hrt _ fuel rest acc hfuel
    obtain ⟨f, rfl⟩ : ∃ f, fuel = f + 1 := ⟨fuel - 1, by omega⟩
    cases l with
    | nil =>
      rw [membersText_singleton] at hfuel ⊢
      simp only [List.append_assoc, List.cons_append] at hfuel ⊢
      have hv := hrt kv (List.mem_cons_self _ _) f ('\x7d' :: rest) (delimited_brace rest)
        (by simp only [List.length_append, List.length_cons] at hfuel ⊢; omega)
      have hds := decodeString_encodeString kv.1
        (':' :: ((encodeValue kv.2).toList ++ '\x7d' :: rest))
      simp only [decodeMembers, skipSpace_quote, if_true, hds, skipSpace_colon, hv]
      simp [skipSpace, isSpace]
    | cons kv' l' =>
      rw [membersText_cons_cons] at hfuel ⊢
      simp only [List.append_assoc, List.cons_append] at hfuel ⊢
      have hv := hrt kv (List.mem_cons_self _ _) f
        (',' :: (membersText (kv' :: l') ++ '\x7d' :: rest)) (delimited_comma _)
        (by simp only [List.length_append, List.length_cons] at hfuel ⊢; omega)
      have hrest := ih (fun z hz => hrt z (List.mem_cons_of_mem _ hz)) (List.cons_ne_nil _ _)
        f rest (GoMap.set acc kv.1 (canon kv.2))
        (by simp only [List.length_append, List.length_cons] at hfuel ⊢; omega)
      have hds := decodeString_encodeString kv.1
        (':' :: ((encodeValue kv.2).toList ++ ',' :: (membersText (kv' :: l') ++
          '\x7d' :: rest)))
      simp only [decodeMembers, skipSpace_quote, if_true, hds, skipSpace_colon, hv]
      simp [skipSpace, isSpace, hrest]

theorem skipSpace_bracket (t : List Char) : skipSpace ('[' :: t) = '[' :: t := rfl

theorem skipSpace_brace (t : List Char) : skipSpace ('\x7b' :: t) = '\x7b' :: t := rfl

theorem roundTrips_null : RoundTrips .null := by
  intro fuel rest _ hfuel
  obtain ⟨f, rfl⟩ : ∃ f, fuel = f + 1 := ⟨fuel - 1, by omega⟩
  have henc : (encodeValue .null).toList = ['n', 'u', 'l', 'l'] := rfl
  rw [henc]
  simp [decodeValue, skipSpace, isSpace, expectChars, canon]

theorem roundTrips_bool (b : Bool) : RoundTrips (.bool b) := by
  intro fuel rest _ hfuel
  obtain ⟨f, rfl⟩ : ∃ f, fuel = f + 1 := ⟨fuel - 1, by omega⟩
  cases b
  · have henc : (encodeValue (.bool false)).toList = ['f', 'a', 'l', 's', 'e'] := rfl
    rw [henc]
    simp [decodeValue, skipSpace, isSpace, expectChars, canon]
  · have henc : (encodeValue (.bool true)).toList = ['t', 'r', 'u', 'e'] := rfl
    rw [henc]
    simp [decodeValue, skipSpace, isSpace, expectChars, canon]

theorem roundTrips_int (n : Int) : RoundTrips (.int n) := by
  intro fuel rest hrest hfuel
  obtain ⟨f, rfl⟩ : ∃ f, fuel = f + 1 := ⟨fuel - 1, by omega⟩
  have henc : (encodeValue (.int n)).toList = (toString n).toList := by
    simp [encodeValue]
  obtain ⟨c, t, hct, hc⟩ := int_head n
  obtain ⟨h0, h1, h2, h3, h4, h5, h6, _⟩ := number_head_plain c hc
  have hnum := decodeNumber_toString n rest hrest
  rw [henc]
  rw [hct] at hnum ⊢
  simp only [List.cons_append] at hnum ⊢
  simp only [decodeValue, skipSpace_cons c _ h0, h1, h2, h3, h4, h5, h6, if_false, hnum, canon]

theorem roundTrips_str (s : String) : RoundTrips (.str s) := by
  intro fuel rest _ hfuel
  obtain ⟨f, rfl⟩ : ∃ f, fuel = f + 1 := ⟨fuel - 1, by omega⟩
  rw [encodeValue_str_toList]
  simp only [List.cons_append, List.append_assoc, List.nil_append]
  have hds := decodeString_encodeString s rest
  simp only [decodeValue, skipSpace_quote, hds, canon]
  simp

theorem elementsText_head (x : GoValue) (l : List GoValue) :
    ∃ c t, elementsText (x :: l) = c :: t ∧ isSpace c = false ∧ c ≠ ']' := by
  obtain ⟨c, t, hct, h1, h2⟩ := encodeValue_head x
  cases l with
  | nil => exact ⟨c, t, by rw [elementsText_singleton, hct], h1, h2⟩
  | cons y l' =>
    exact ⟨c, t ++ ',' :: elementsText (y :: l'), by
      rw [elementsText_cons_cons, hct]; rfl, h1, h2⟩

theorem membersText_head (kv : String × GoValue) (l : GoMap) :
    ∃ t, membersText (kv :: l) = '"' :: t := by
  cases l with
  | nil => exact ⟨_, membersText_singleton kv⟩
  | cons kv' l' => exact ⟨_, membersText_cons_cons kv kv' l'⟩

theorem roundTrips_arr (xs : List GoValue) (hrt : ∀ x ∈ xs, RoundTrips x) :
    RoundTrips (.arr xs) := by
  intro fuel rest _ hfuel
  obtain ⟨f, rfl⟩ : ∃ f, fuel = f + 1 := ⟨fuel - 1, by omega⟩
  rw [encodeValue_arr_toList] at hfuel ⊢
  simp only [List.cons_append, List.append_assoc, List.nil_append] at hfuel ⊢
  cases xs with
  | nil =>
    have he : elementsText [] = [] := rfl
    rw [he]
    simp [decodeValue, skipSpace, isSpace, canon, canonElements]
  | cons x l =>
    obtain ⟨c, t, hct, h1, h2⟩ := elementsText_head x l
    have hel := decodeElements_elementsText (x :: l) hrt (List.cons_ne_nil _ _) f rest
      (by simp only [List.length_cons] at hfuel; omega)
    have hbody : elementsText (x :: l) ++ ']' :: rest = c :: (t ++ ']' :: rest) := by
      rw [hct]; rfl
    rw [hbody] at hel ⊢
    simp only [decodeValue, skipSpace_bracket, skipSpace_cons c _ h1, h2, if_false, hel,
      canon, canonElements_eq_map]
    simp

theorem roundTrips_obj (m : List (String × GoValue)) (hnd : (m.map Prod.fst).Nodup)
    (hrt : ∀ kv ∈ m, RoundTrips kv.2) : RoundTrips (.obj m) := by
  intro fuel rest _ hfuel
  obtain ⟨f, rfl⟩ : ∃ f, fuel = f + 1 := ⟨fuel - 1, by omega⟩
  rw [encodeValue_obj_toList] at hfuel ⊢
  simp only [List.cons_append, List.append_assoc, List.nil_append] at hfuel ⊢
  have hcanon : canon (.obj m) = .obj ((sortFields m).map (fun kv => (kv.1, canon kv.2))) := by
    simp only [canon, canonBindings_eq_map, sortFields_map]
  rw [hcanon]
  cases hsort : sortFields m with
  | nil =>
    have he : membersText [] = [] := rfl
    rw [he]
    simp [decodeValue, skipSpace, isSpace]
  | cons kv l =>
    rw [hsort] at hfuel
    have hperm := sortFields_perm m
    rw [hsort] at hperm
    have hrt' : ∀ p ∈ kv :: l, RoundTrips p.2 := fun p hp => hrt p (hperm.mem_iff.1 hp)
    have hnd' : (((kv :: l).map (fun p => (p.1, canon p.2))).map Prod.fst).Nodup := by
      have h1 : ((kv :: l).map (fun p => (p.1, canon p.2))).map Prod.fst =
          (kv :: l).map Prod.fst := by
        simp [List.map_map, Function.comp_def]
      rw [h1]
      exact (List.Perm.nodup_iff (hperm.map Prod.fst)).2 hnd
    obtain ⟨t, ht⟩ := membersText_head kv l
    have hmem := decodeMembers_membersText (kv :: l) hrt' (List.cons_ne_nil _ _) f rest []
      (by simp only [List.length_cons] at hfuel; omega)
    rw [foldl_set_of_nodup _ [] (by simpa using hnd')] at hmem
    have hbody : membersText (kv :: l) ++ '\x7d' :: rest = '"' :: (t ++ '\x7d' :: rest) := by
      rw [ht]; rfl
    rw [hbody] at hmem ⊢
    have hq : isSpace '"' = false := rfl
    have hne : ¬ ('"' = '\x7d') := by decide
    simp only [decodeValue, skipSpace_brace, skipSpace_cons '"' _ hq, hne, if_false, hmem]
    simp

mutual
theorem roundTrips (v : GoValue) (h : UniqueKeys v) : RoundTrips v :=
  match v with
  | .null => roundTrips_null
  | .bool b => roundTrips_bool b
  | .int n => roundTrips_int n
  | .str s => roundTrips_str s
  | .arr xs => roundTrips_arr xs (roundTrips_elements xs (by simpa [UniqueKeys] using h))
  | .obj m =>
    roundTrips_obj m (by simp only [UniqueKeys] at h; exact h.1)
      (roundTrips_bindings m (by simp only [UniqueKeys] at h; exact h.2))
theorem roundTrips_elements (xs : List GoValue) (h : UniqueKeysElements xs) :
    ∀ x ∈ xs, RoundTrips x :=
  match xs with
  | [] => fun _ hx => absurd hx (List.not_mem_nil _)
  | y :: rest => fun x hx =>
    have hy : UniqueKeys y ∧ UniqueKeysElements rest := by
      simpa [UniqueKeysElements] using h
    (List.mem_cons.1 hx).elim (fun e => e ▸ roundTrips y hy.1)
      (fun hr => roundTrips_elements rest hy.2 x hr)
theorem roundTrips_bindings (m : List (String × GoValue)) (h : UniqueKeysBindings m) :
    ∀ kv ∈ m, RoundTrips kv.2 :=
  match m with
  | [] => fun _ hx => absurd hx (List.not_mem_nil _)
  | (k, y) :: rest => fun kv hx =>
    have hy : UniqueKeys y ∧ UniqueKeysBindings rest := by
      simpa [UniqueKeysBindings] using h
    (List.mem_cons.1 hx).elim (fun e => e ▸ roundTrips y hy.1)
      (fun hr => roundTrips_bindings rest hy.2 kv hr)
end

theorem uniqueKeysElements_iff (xs : List GoValue) :
    UniqueKeysElements xs ↔ ∀ x ∈ xs, UniqueKeys x := by
  induction xs with
  | nil => simp [UniqueKeysElements]
  | cons x rest ih => simp [UniqueKeysElements, ih]

theorem uniqueKeysBindings_iff (m : List (String × GoValue)) :
    UniqueKeysBindings m ↔ ∀ kv ∈ m, UniqueKeys kv.2 := by
  induction m with
  | nil => simp [UniqueKeysBindings]
  | cons p rest ih =>
    obtain ⟨k, x⟩ := p
    simp [UniqueKeysBindings, ih]

theorem canon_lookup (m : List (String × GoValue)) (hnd : (m.map Prod.fst).Nodup) :
    ∀ kv ∈ m, GoMap.get? (sortFields (canonBindings m)) kv.1 = some (canon kv.2) := by
  intro kv hkv
  have hperm := sortFields_perm (canonBindings m)
  have hkeys : (canonBindings m).map Prod.fst = m.map Prod.fst := by
    rw [canonBindings_eq_map]
    simp [List.map_map, Function.comp_def]
  have hnd' : ((sortFields (canonBindings m)).map Prod.fst).Nodup := by
    rw [List.Perm.nodup_iff (hperm.map Prod.fst), hkeys]
    exact hnd
  apply get?_eq_of_mem_nodup _ _ _ hnd'
  rw [hperm.mem_iff, canonBindings_eq_map]
  exact List.mem_map.2 ⟨kv, hkv, rfl⟩

theorem canon_keys (m : List (String × GoValue)) (k : String)
    (hk : k ∈ GoMap.keys (sortFields (canonBindings m))) : k ∈ m.map Prod.fst := by
  have hperm := (sortFields_perm (canonBindings m)).map Prod.fst
  have hkeys : (canonBindings m).map Prod.fst = m.map Prod.fst := by
    rw [canonBindings_eq_map]
    simp [List.map_map, Function.comp_def]
  rw [← hkeys]
  exact hperm.mem_iff.1 hk

theorem canon_keys_nodup (m : List (String × GoValue)) (hnd : (m.map Prod.fst).Nodup) :
    (GoMap.keys (sortFields (canonBindings m))).Nodup := by
  have hperm := (sortFields_perm (canonBindings m)).map Prod.fst
  have hkeys : (canonBindings m).map Prod.fst = m.map Prod.fst := by
    rw [canonBindings_eq_map]
    simp [List.map_map, Function.comp_def]
  unfold GoMap.keys
  rw [List.Perm.nodup_iff hperm, hkeys]
  exact hnd

mutual
theorem sameValue_canon (v : GoValue) (h : UniqueKeys v) : sameValue v (canon v) :=
  match v with
  | .null => by simp [sameValue, canon]
  | .bool b => by simp [sameValue, canon]
  | .int n => by simp [sameValue, canon]
  | .str s => by simp [sameValue, canon]
  | .arr xs => by
    have hxs : UniqueKeysElements xs := by simpa [UniqueKeys] using h
    simp only [sameValue, canon]
    exact ⟨canonElements xs, rfl, sameElements_canon xs hxs⟩
  | .obj m => by
    have hm : (m.map Prod.fst).Nodup ∧ UniqueKeysBindings m := by
      simpa [UniqueKeys] using h
    simp only [sameValue, canon]
    exact ⟨sortFields (canonBindings m), rfl,
      sameBindings_canon m hm.2 _ (canon_lookup m hm.1), canon_keys m, canon_keys_nodup m hm.1⟩
theorem sameElements_canon (xs : List GoValue) (h : UniqueKeysElements xs) :
    sameElements xs (canonElements xs) :=
  match xs with
  | [] => by simp [sameElements, canonElements]
  | x :: rest => by
    have hx : UniqueKeys x ∧ UniqueKeysElements rest := by
      simpa [UniqueKeysElements] using h
    simp only [sameElements, canonElements]
    exact ⟨canon x, canonElements rest, rfl, sameValue_canon x hx.1,
      sameElements_canon rest hx.2⟩
theorem sameBindings_canon (m : List (String × GoValue)) (h : UniqueKeysBindings m) :
    ∀ m' : GoMap, (∀ kv ∈ m, GoMap.get? m' kv.1 = some (canon kv.2)) → sameBindings m m' :=
  match m with
  | [] => by
    intro m' _
    simp [sameBindings]
  | (k, x) :: rest => by
    intro m' hlook
    have hx : UniqueKeys x ∧ UniqueKeysBindings rest := by
      simpa [UniqueKeysBindings] using h
    simp only [sameBindings]
    exact ⟨⟨canon x, hlook (k, x) (List.mem_cons_self _ _), sameValue_canon x hx.1⟩,
      sameBindings_canon rest hx.2 m' (fun kv hkv => hlook kv (List.mem_cons_of_mem _ hkv))⟩
end

theorem GoMap.mem_set (m : GoMap) (k : String) (v : GoValue) (p : String × GoValue)
    (hp : p ∈ GoMap.set m k v) : p = (k, v) ∨ p ∈ m := by
  induction m with
  | nil => simpa [GoMap.set] using hp
  | cons q rest ih =>
    obtain ⟨k', v'⟩ := q
    by_cases h : k' = k
    · simp only [GoMap.set, h, if_true, List.mem_cons] at hp
      rcases hp with hp | hp
      · exact Or.inl hp
      · exact Or.inr (List.mem_cons_of_mem _ hp)
    · simp only [GoMap.set, h, if_false, List.mem_cons] at hp
      rcases hp with hp | hp
      · exact Or.inr (hp ▸ List.mem_cons_self _ _)
      · rcases ih hp with h' | h'
        · exact Or.inl h'
        · exact Or.inr (List.mem_cons_of_mem _ h')

theorem GoMap.keys_set_nodup (m : GoMap) (k : String) (v : GoValue)
    (h : (m.map Prod.fst).Nodup) : ((GoMap.set m k v).map Prod.fst).Nodup := by
  induction m with
  | nil => simp [GoMap.set]
  | cons q rest ih =>
    obtain ⟨k', v'⟩ := q
    simp only [List.map_cons, List.nodup_cons] at h
    by_cases hk : k' = k
    · subst hk
      simpa [GoMap.set] using h
    · simp only [GoMap.set, hk, if_false, List.map_cons, List.nodup_cons]
      refine ⟨?_, ih h.2⟩
      intro hmem
      have := (GoMap.mem_keys_set rest k k' v).1 hmem
      rcases this with e | e
      · exact hk e
      · exact h.1 e

theorem uniqueKeys_nil : UniqueKeys (.obj []) := by
  simp [UniqueKeys, UniqueKeysBindings]

theorem uniqueKeys_set (m : GoMap) (k : String) (v : GoValue)
    (hm : UniqueKeys (.obj m)) (hv : UniqueKeys v) : UniqueKeys (.obj (GoMap.set m k v)) := by
  simp only [UniqueKeys, uniqueKeysBindings_iff] at hm ⊢
  refine ⟨GoMap.keys_set_nodup m k v hm.1, ?_⟩
  intro p hp
  rcases GoMap.mem_set m k v p hp with e | e
  · rw [e]
    exact hv
  · exact hm.2 p e

theorem uniqueKeys_ite (c : Prop) [Decidable c] (a b : GoMap)
    (ha : UniqueKeys (.obj a)) (hb : UniqueKeys (.obj b)) :
    UniqueKeys (.obj (if c then a else b)) := by
  by_cases h : c <;> simp [h, ha, hb]

theorem uniqueKeys_str (s : String) : UniqueKeys (.str s) := by simp [UniqueKeys]

theorem uniqueKeys_int (n : Int) : UniqueKeys (.int n) := by simp [UniqueKeys]

theorem uniqueKeys_bool (b : Bool) : UniqueKeys (.bool b) := by simp [UniqueKeys]

theorem uniqueKeys_stringList (xs : List String) : UniqueKeys (stringList xs) := by
  simp only [stringList, UniqueKeys, uniqueKeysElements_iff]
  intro x hx
  obtain ⟨s, _, rfl⟩ := List.mem_map.1 hx
  exact uniqueKeys_str s

theorem uniqueKeys_mapList (l : List GoMap) (h : ∀ m ∈ l, UniqueKeys (.obj m)) :
    UniqueKeys (mapList l) := by
  simp only [mapList, UniqueKeys, uniqueKeysElements_iff]
  intro x hx
  obtain ⟨m, hm, rfl⟩ := List.mem_map.1 hx
  exact h m hm

theorem uniqueKeys_chartItem (c : ChartEntry) :
    UniqueKeys (.obj (getDashboardCharts.item c)) := by
  unfold getDashboardCharts.item
  exact uniqueKeys_set _ _ _ (uniqueKeys_set _ _ _ (uniqueKeys_set _ _ _ (uniqueKeys_set _ _ _
    (uniqueKeys_set _ _ _ uniqueKeys_nil (uniqueKeys_str _)) (uniqueKeys_int _))
    (uniqueKeys_int _)) (uniqueKeys_int _)) (uniqueKeys_int _)

theorem uniqueKeys_variableItem (x : VariableEntry) :
    UniqueKeys (.obj (getDashboardVariables.item x)) := by
  unfold getDashboardVariables.item
  have h4 : UniqueKeys (.obj (GoMap.set (GoMap.set (GoMap.set (GoMap.set [] "property"
      (.str x.property)) "alias" (.str x.alias_)) "value" (stringList x.values)) "required"
      (.bool x.value_required))) :=
    uniqueKeys_set _ _ _ (uniqueKeys_set _ _ _ (uniqueKeys_set _ _ _ (uniqueKeys_set _ _ _
      uniqueKeys_nil (uniqueKeys_str _)) (uniqueKeys_str _)) (uniqueKeys_stringList _))
      (uniqueKeys_bool _)
  cases x.values_suggested with
  | none => exact uniqueKeys_set _ _ _ h4 (uniqueKeys_bool _)
  | some val =>
    exact uniqueKeys_set _ _ _ (uniqueKeys_set _ _ _ h4 (uniqueKeys_stringList _))
      (uniqueKeys_bool _)

theorem uniqueKeys_filterItem (x : FilterEntry) :
    UniqueKeys (.obj (getDashboardFilters.item x)) := by
  unfold getDashboardFilters.item
  exact uniqueKeys_set _ _ _ (uniqueKeys_set _ _ _ (uniqueKeys_set _ _ _ uniqueKeys_nil
    (uniqueKeys_str _)) (uniqueKeys_bool _)) (uniqueKeys_stringList _)

theorem uniqueKeys_time (d : ResourceData) : UniqueKeys (.obj (getDashboardTime d)) := by
  by_cases hty : (getOkString d.time_span_type).2 = true
  · by_cases hrel : (getOkString d.time_span_type).1 = "relative"
    · rw [getDashboardTime_relative d hty hrel]
      by_cases hr : (getOkString d.time_range).2 = true <;>
        simp [hr, UniqueKeys, UniqueKeysBindings]
    · rw [getDashboardTime_absolute d hty hrel]
      by_cases hs : (getOkInt d.start_time).2 = true <;>
        by_cases he : (getOkInt d.end_time).2 = true <;>
        simp [hs, he, UniqueKeys, UniqueKeysBindings]
  · have hf : (getOkString d.time_span_type).2 = false := by simpa using hty
    rw [getDashboardTime_unset d hf]
    exact uniqueKeys_nil

theorem uniqueKeys_all_filters (d : ResourceData) :
    UniqueKeys (.obj (getPayloadDashboard.all_filters d)) := by
  unfold getPayloadDashboard.all_filters
  have hf : UniqueKeys (mapList (getDashboardFilters d)) := by
    apply uniqueKeys_mapList
    intro m hm
    rw [getDashboardFilters_eq_map] at hm
    obtain ⟨x, _, rfl⟩ := List.mem_map.1 hm
    exact uniqueKeys_filterItem x
  have hv : UniqueKeys (mapList (getDashboardVariables d)) := by
    apply uniqueKeys_mapList
    intro m hm
    rw [getDashboardVariables_eq_map] at hm
    obtain ⟨x, _, rfl⟩ := List.mem_map.1 hm
    exact uniqueKeys_variableItem x
  have h1 := uniqueKeys_ite ((getDashboardFilters d).length > 0) _ _
    (uniqueKeys_set [] "sources" _ uniqueKeys_nil hf) uniqueKeys_nil
  have h2 := uniqueKeys_ite ((getDashboardVariables d).length > 0) _ _
    (uniqueKeys_set _ "variables" _ h1 hv) h1
  exact uniqueKeys_ite ((getDashboardTime d).length > 0) _ _
    (uniqueKeys_set _ "time" _ h2 (uniqueKeys_time d)) h2

theorem uniqueKeys_payload (nonAscii : Char → Char) (d : ResourceData) :
    UniqueKeys (.obj (getPayloadDashboard.payload nonAscii d)) := by
  unfold getPayloadDashboard.payload
  have hc : UniqueKeys (mapList (getDashboardCharts d)) := by
    apply uniqueKeys_mapList
    intro m hm
    rw [getDashboardCharts_eq_map] at hm
    obtain ⟨x, _, rfl⟩ := List.mem_map.1 hm
    exact uniqueKeys_chartItem x
  have h0 : UniqueKeys (.obj (GoMap.set (GoMap.set (GoMap.set [] "name" (.str d.name))
      "description" (.str (getString d.description))) "groupId" (.str d.dashboard_group))) :=
    uniqueKeys_set _ _ _ (uniqueKeys_set _ _ _ (uniqueKeys_set _ _ _ uniqueKeys_nil
      (uniqueKeys_str _)) (uniqueKeys_str _)) (uniqueKeys_str _)
  have h1 := uniqueKeys_ite ((getPayloadDashboard.all_filters d).length > 0) _ _
    (uniqueKeys_set _ "filters" _ h0 (uniqueKeys_all_filters d)) h0
  have h2 := uniqueKeys_ite ((getDashboardCharts d).length > 0) _ _
    (uniqueKeys_set _ "charts" _ h1 hc) h1
  exact uniqueKeys_ite ((getOkString d.charts_resolution).2 = true) _ _
    (uniqueKeys_set _ "chartDensity" _ h2 (uniqueKeys_str _)) h2

/-- The decoder on small texts: the object literal of the end-to-end scenario, with its
members in the order the specification writes them, decodes to the payload map of
`scenarioD1`; a repeated key overwrites; escapes are undone; text that is not JSON, or
that has a fraction, is refused. -/
theorem jsonUnmarshal_examples :
    jsonUnmarshal
        "\x7b\"name\":\"D1\",\"description\":\"\",\"groupId\":\"G1\",\"chartDensity\":\"HIGH\"\x7d" =
      some (.obj (getPayloadDashboard.payload id scenarioD1)) ∧
    jsonUnmarshal "\x7b \"a\" : [1, -20, true, null], \"a\" : \"x\\u003cy\\n\" \x7d" =
      some (.obj [("a", .str "x<y\n")]) ∧
    jsonUnmarshal "[1,]" = none ∧ jsonUnmarshal "01" = none ∧ jsonUnmarshal "1.5" = none ∧
    jsonUnmarshal "[1] 2" = none :=
  ⟨rfl, rfl, rfl, rfl, rfl, rfl⟩

theorem jsonUnmarshal_encodeValue (v : GoValue) (h : UniqueKeys v) :
    jsonUnmarshal (encodeValue v) = some (canon v) := by
  have hrt := roundTrips v h (2 * (encodeValue v).toList.length + 1) [] (Or.inl rfl)
    (by simp)
  rw [List.append_nil] at hrt
  simp only [jsonUnmarshal, hrt, skipSpace, if_true]

/-- C13: for every dashboard configuration `getPayloadDashboard` returns bytes, and
decoding these bytes as JSON yields a value structurally equal to the payload map that was
encoded: the same key set at every level, the same strings, booleans and integers, and the
list elements in the same order, no field being lost. -/
theorem marshal_unmarshal_spec (nonAscii : Char → Char) (d : ResourceData) :
    ∃ bytes decoded, getPayloadDashboard nonAscii jsonMarshal d = .ok bytes ∧
      jsonUnmarshal bytes = some decoded ∧
      sameValue (.obj (getPayloadDashboard.payload nonAscii d)) decoded :=
  ⟨encodeValue (.obj (getPayloadDashboard.payload nonAscii d)),
   canon (.obj (getPayloadDashboard.payload nonAscii d)), rfl,
   jsonUnmarshal_encodeValue _ (uniqueKeys_payload nonAscii d),
   sameValue_canon _ (uniqueKeys_payload nonAscii d)⟩

end Signalform
